import Mathlib

/-!
Shallow embedding of the orchestrator decision pipeline of the
`agentic-trading` repository (src/src/orchestrator and src/src/strategies),
together with proofs of the spec claims about it.

Conventions of the embedding:
* Python `float` arithmetic is modelled over `ℚ`; `round(x, d)` is modelled
  by rounding to the nearest multiple of `10⁻ᵈ` (Python rounds half to even,
  which differs only at exact half-ulp ties).
* Python `dict` arguments are modelled as association lists with
  first-match lookup (`List.lookup`); Python dict keys are unique, so the
  two agree.
* Free-text audit fields (`detail`, `explain`) and runner-stamped metadata
  (`signal_id`, `cycle_id`, `params_hash`, `strategy_version`, the intent
  UUID, wall-clock `elapsed_ms`) are omitted from the records: no claim
  depends on their contents.
* Timestamps are modelled as `ℚ` (seconds); `timedelta.total_seconds()/60`
  becomes division by 60.
-/

namespace AgenticTrading

/-- `Side` enum from src/src/strategies/signal.py. -/
inductive Side where
  | long
  | short
  | flat
deriving DecidableEq, Repr

/-- `Side.value` — the string payload of the `str`-valued enum. -/
def Side.value : Side → String
  | .long => "long"
  | .short => "short"
  | .flat => "flat"

/-- `Signal` from src/src/strategies/signal.py, restricted to the fields the
deconfliction and sizing pipeline reads (`entry`, `invalidate` and the
runner-stamped metadata fields are never read by the code under claim).
`strength` is clamped to [-1,1] and `confidence` to [0,1] by pydantic
validators on construction; theorems that need those bounds take them as
hypotheses. -/
structure Signal where
  strategy_id : String
  symbol : String
  side : Side
  strength : ℚ
  confidence : ℚ
  horizon_bars : ℕ
  stop_price : Option ℚ := none
  take_profit_price : Option ℚ := none
  tags : List String := []
  alpha_net : Option ℚ := none
deriving DecidableEq, Repr

/-- `DropReason` from src/src/orchestrator/models.py.  The first five members
are declared there; `vetoed`, `below_cost_threshold` and
`below_alpha_threshold` are modelled from the spec ("reason \"vetoed\"",
"below alpha threshold", zero-net-alpha drops): deconflict.py and its tests
use `DropReason.VETOED`, `DropReason.BELOW_COST_THRESHOLD` and
`DropReason.BELOW_ALPHA_THRESHOLD`, whose declarations are missing from the
models.py snapshot under src/. -/
inductive DropReason where
  | flat_signal
  | conflicting_sides
  | below_confidence_threshold
  | zero_strength
  | symbol_excluded
  | vetoed
  | below_cost_threshold
  | below_alpha_threshold
deriving DecidableEq, Repr

/-- `DroppedSignal` from src/src/orchestrator/models.py (free-text `detail`
omitted). -/
structure DroppedSignal where
  strategy_id : String
  symbol : String
  side : String
  strength : ℚ
  confidence : ℚ
  reason : DropReason
deriving DecidableEq, Repr

/-- `SignalContribution` from src/src/orchestrator/models.py.  The
`alpha_net` field is used by deconflict.py and its tests but missing from
the models.py snapshot; modelled from the spec ("full contributor
provenance" with per-contributor net alpha). -/
structure SignalContribution where
  strategy_id : String
  side : String
  strength : ℚ
  confidence : ℚ
  weight : ℚ
  horizon_bars : ℕ
  alpha_net : Option ℚ := none
deriving DecidableEq, Repr

/-- `MergedSignal` from src/src/orchestrator/models.py.  The `agg_alpha`
field is constructed by deconflict.py and read by sizing.py and the tests
but missing from the models.py snapshot; modelled from the spec ("aggregate
net-alpha (sum across agreeing contributors)"). -/
structure MergedSignal where
  symbol : String
  side : String
  agg_strength : ℚ
  agg_confidence : ℚ
  agg_alpha : Option ℚ := none
  horizon_bars : ℕ
  stop_hint : Option ℚ := none
  tp_hint : Option ℚ := none
  contributions : List SignalContribution := []
deriving DecidableEq, Repr

/-- Python `min` on two floats.  Written with an explicit `if` (rather than
Mathlib's `min`) so that concrete runs reduce inside the kernel; the lemma
`qmin_eq` below identifies the two. -/
def qmin (a b : ℚ) : ℚ := if a ≤ b then a else b

/-- Python `max` on two floats (see `qmin`). -/
def qmax (a b : ℚ) : ℚ := if a ≤ b then b else a

/-- Python `abs` on a float (see `qmin`). -/
def qabs (a : ℚ) : ℚ := if a < 0 then -a else a

/-- `⌊q⌋` computed from the numerator and denominator (kernel-reducible;
equal to `Int.floor` by `qfloor_eq`). -/
def qfloor (q : ℚ) : ℤ := q.num / (q.den : ℤ)

/-- Rounding a float to the nearest integer (see `qmin`; Python ties go to
even, which differs only at exact halves). -/
def qround (q : ℚ) : ℤ := qfloor (q + 1/2)

/-- Python `max` on two ints (see `qmin`). -/
def imax (a b : ℤ) : ℤ := if a ≤ b then b else a

/-- pydantic validator `_clamp_strength` on `MergedSignal.agg_strength`. -/
def clampStrength (v : ℚ) : ℚ := qmax (-1) (qmin 1 v)

/-- pydantic validator `_clamp_confidence` on `MergedSignal.agg_confidence`. -/
def clampConfidence (v : ℚ) : ℚ := qmax 0 (qmin 1 v)

/-- `round(x, d)` on a Python float, modelled over `ℚ` as rounding to the
nearest multiple of `10⁻ᵈ` (Python ties go to even; that differs only at
exact half-ulp ties). -/
def roundTo (d : ℕ) (q : ℚ) : ℚ := (qround (q * 10 ^ d) : ℚ) / 10 ^ d

/-- `_DEFAULT_STRATEGY_WEIGHT` from src/src/orchestrator/deconflict.py. -/
def DEFAULT_STRATEGY_WEIGHT : ℚ := 1

/-- `_regime_multiplier` from src/src/orchestrator/deconflict.py.  `regime`
being `None` or the empty string is falsy in Python (`if not regime`), as is
an empty per-regime weight dict; an absent category (or empty-string
category) falls back to 1.0. -/
def regime_multiplier (sig : Signal) (regime : Option String)
    (regime_weights : List (String × List (String × ℚ)))
    (strategy_categories : List (String × String)) : ℚ :=
  match regime with
  | none => 1
  | some r =>
    if r = "" then 1
    else
      let weights_for_regime := (regime_weights.lookup r).getD []
      if weights_for_regime = [] then 1
      else
        match weights_for_regime.lookup sig.strategy_id with
        | some w => w
        | none =>
          match strategy_categories.lookup sig.strategy_id with
          | some category =>
            if category = "" then 1
            else (weights_for_regime.lookup category).getD 1
          | none => 1

/-- `_effective_weight` from src/src/orchestrator/deconflict.py. -/
def effective_weight (sig : Signal) (strategy_weights : List (String × ℚ))
    (regime_mult : ℚ) : ℚ :=
  match sig.alpha_net with
  | some a => qabs a * regime_mult
  | none =>
    let w := (strategy_weights.lookup sig.strategy_id).getD DEFAULT_STRATEGY_WEIGHT
    qabs sig.strength * sig.confidence * w * regime_mult

/-- `_net_vote_contribution` from src/src/orchestrator/deconflict.py. -/
def net_vote_contribution (sig : Signal) (strategy_weights : List (String × ℚ))
    (regime_mult : ℚ) : ℚ :=
  match sig.alpha_net with
  | some a => a * regime_mult
  | none =>
    let w := (strategy_weights.lookup sig.strategy_id).getD DEFAULT_STRATEGY_WEIGHT
    let vote := qabs sig.strength * sig.confidence * w * regime_mult
    if sig.side = Side.short then -vote else vote

/-- The `DroppedSignal` record built at every drop site of deconflict.py
(always from the dropped signal's own fields plus a reason). -/
def dropRecord (s : Signal) (reason : DropReason) : DroppedSignal :=
  { strategy_id := s.strategy_id
    symbol := s.symbol
    side := s.side.value
    strength := s.strength
    confidence := s.confidence
    reason := reason }

/-- Accumulator threaded through the contributor loop of
`_build_directional_merged` / `_build_exit_merged`. -/
structure MergeAcc where
  total_weight : ℚ
  weighted_strength : ℚ
  weighted_confidence : ℚ
  weighted_horizon : ℚ
  sum_alpha : ℚ
  has_alpha : Bool
  tightest_stop : Option ℚ
  nearest_tp : Option ℚ
  contributions : List SignalContribution

/-- Empty accumulator (the local variables' initial values). -/
def MergeAcc.init : MergeAcc :=
  ⟨0, 0, 0, 0, 0, false, none, none, []⟩

/-- One iteration of the contributor loop in `_build_directional_merged`.
The source keys precomputed regime multipliers by `id(s)`; every signal in
`sigs` is present in that dict, so the lookup is modelled by recomputing
`_regime_multiplier` for the signal. -/
def mergeStep (strategy_weights : List (String × ℚ)) (regime : Option String)
    (regime_weights : List (String × List (String × ℚ)))
    (strategy_categories : List (String × String))
    (side : String) (acc : MergeAcc) (s : Signal) : MergeAcc :=
  let rm := regime_multiplier s regime regime_weights strategy_categories
  let ew := effective_weight s strategy_weights rm
  { total_weight := acc.total_weight + ew
    weighted_strength := acc.weighted_strength + s.strength * ew
    weighted_confidence := acc.weighted_confidence + s.confidence * ew
    weighted_horizon := acc.weighted_horizon + (s.horizon_bars : ℚ) * ew
    sum_alpha :=
      match s.alpha_net with
      | some a => acc.sum_alpha + a
      | none => acc.sum_alpha
    has_alpha := acc.has_alpha || s.alpha_net.isSome
    tightest_stop :=
      match s.stop_price, acc.tightest_stop with
      | none, t => t
      | some p, none => some p
      | some p, some t => some (if side = "long" then qmax t p else qmin t p)
    nearest_tp :=
      match s.take_profit_price, acc.nearest_tp with
      | none, t => t
      | some p, none => some p
      | some p, some t => some (if side = "long" then qmin t p else qmax t p)
    contributions := acc.contributions ++
      [{ strategy_id := s.strategy_id
         side := s.side.value
         strength := s.strength
         confidence := s.confidence
         weight := roundTo 6 (effective_weight s strategy_weights rm)
         horizon_bars := s.horizon_bars
         alpha_net := s.alpha_net }] }

/-- `_build_directional_merged` from src/src/orchestrator/deconflict.py.
`agg_strength`/`agg_confidence` are clamped by the pydantic validators on
`MergedSignal` construction. -/
def build_directional_merged (symbol : String) (side : String)
    (sigs : List Signal) (strategy_weights : List (String × ℚ))
    (regime : Option String)
    (regime_weights : List (String × List (String × ℚ)))
    (strategy_categories : List (String × String)) : MergedSignal :=
  let acc := sigs.foldl
    (mergeStep strategy_weights regime regime_weights strategy_categories side)
    MergeAcc.init
  let agg_strength :=
    if acc.total_weight > 0 then acc.weighted_strength / acc.total_weight else 0
  let agg_confidence :=
    if acc.total_weight > 0 then acc.weighted_confidence / acc.total_weight else 0
  let horizon : ℤ :=
    if acc.total_weight > 0 then
      imax 1 (qround (acc.weighted_horizon / acc.total_weight))
    else 1
  { symbol := symbol
    side := side
    agg_strength := clampStrength agg_strength
    agg_confidence := clampConfidence agg_confidence
    agg_alpha := if acc.has_alpha then some acc.sum_alpha else none
    horizon_bars := horizon.toNat
    stop_hint := acc.tightest_stop
    tp_hint := acc.nearest_tp
    contributions := acc.contributions }

/-- `_build_exit_merged` from src/src/orchestrator/deconflict.py.  Its loop
is the directional loop minus horizon/stop/TP accumulation, which the final
record ignores, so the same step function is folded; `side` is fixed to
"flat" and `horizon_bars` to 1. -/
def build_exit_merged (symbol : String) (sigs : List Signal)
    (strategy_weights : List (String × ℚ)) (regime : Option String)
    (regime_weights : List (String × List (String × ℚ)))
    (strategy_categories : List (String × String)) : MergedSignal :=
  let acc := sigs.foldl
    (mergeStep strategy_weights regime regime_weights strategy_categories "flat")
    MergeAcc.init
  { symbol := symbol
    side := "flat"
    agg_strength := clampStrength
      (if acc.total_weight > 0 then acc.weighted_strength / acc.total_weight else 0)
    agg_confidence := clampConfidence
      (if acc.total_weight > 0 then acc.weighted_confidence / acc.total_weight else 0)
    agg_alpha := if acc.has_alpha then some acc.sum_alpha else none
    horizon_bars := 1
    stop_hint := none
    tp_hint := none
    contributions := acc.contributions }

/-- `s.side == Side.FLAT and s.strength < 0` — the exit-intent test used in
`_merge_symbol_signals`. -/
def isExitSignal (s : Signal) : Bool :=
  decide (s.side = Side.flat ∧ s.strength < 0)

/-- The side string a directional signal votes for in the consensus step
(`"short" if s.side == Side.SHORT else "long"`). -/
def sigSideStr (s : Signal) : String :=
  if s.side = Side.short then "short" else "long"

/-- The strict tolerance `1e-9` used for the perfect-cancellation test. -/
def VOTE_EPS : ℚ := 1 / 1000000000

/-- `exit_sigs`: the FLAT-with-negative-strength signals of the symbol. -/
def exit_sigs_of (sigs : List Signal) : List Signal :=
  sigs.filter isExitSignal

/-- `directional_sigs`: the remaining (non-exit) signals of the symbol. -/
def directional_sigs_of (sigs : List Signal) : List Signal :=
  sigs.filter (fun s => ¬ isExitSignal s)

/-- The veto test of `_merge_symbol_signals`
(`any(veto_set & set(s.tags) for s in sigs)`). -/
def veto_hit (sigs : List Signal) (veto_tags : List String) : Bool :=
  sigs.any (fun s => s.tags.any (fun t => veto_tags.contains t))

/-- The summed effective weight of a group of signals (used for the
exit-vs-directional contest). -/
def group_weight (sigs : List Signal) (strategy_weights : List (String × ℚ))
    (regime : Option String)
    (regime_weights : List (String × List (String × ℚ)))
    (strategy_categories : List (String × String)) : ℚ :=
  (sigs.map (fun s => effective_weight s strategy_weights
    (regime_multiplier s regime regime_weights strategy_categories))).sum

/-- `net_vote`: the summed signed vote of the directional signals. -/
def net_vote_of (sigs : List Signal) (strategy_weights : List (String × ℚ))
    (regime : Option String)
    (regime_weights : List (String × List (String × ℚ)))
    (strategy_categories : List (String × String)) : ℚ :=
  (sigs.map (fun s => net_vote_contribution s strategy_weights
    (regime_multiplier s regime regime_weights strategy_categories))).sum

/-- `consensus_side = "long" if net_vote > 0 else "short"`. -/
def consensus_side_of (net_vote : ℚ) : String :=
  if net_vote > 0 then "long" else "short"

/-- The directional-consensus tail of `_merge_symbol_signals` (net vote,
cancellation test, same-side selection, merge).  `priorDrops` holds drop
records already appended by the exit-vs-directional contest.  The source's
local variables (`net_vote`, `consensus_side`, `same_side`, `opposite`) are
the named sub-definitions above. -/
def directional_phase (symbol : String) (directional_sigs : List Signal)
    (strategy_weights : List (String × ℚ)) (regime : Option String)
    (regime_weights : List (String × List (String × ℚ)))
    (strategy_categories : List (String × String))
    (priorDrops : List DroppedSignal) :
    Option MergedSignal × List DroppedSignal :=
  if qabs (net_vote_of directional_sigs strategy_weights regime regime_weights
      strategy_categories) < VOTE_EPS then
    (none, priorDrops ++ directional_sigs.map (dropRecord · .conflicting_sides))
  else if directional_sigs.filter (fun s => sigSideStr s
      = consensus_side_of (net_vote_of directional_sigs strategy_weights regime
        regime_weights strategy_categories)) = [] then
    (none, priorDrops ++ (directional_sigs.filter (fun s => ¬ sigSideStr s
      = consensus_side_of (net_vote_of directional_sigs strategy_weights regime
        regime_weights strategy_categories))).map
      (dropRecord · .conflicting_sides))
  else
    (some (build_directional_merged symbol
      (consensus_side_of (net_vote_of directional_sigs strategy_weights regime
        regime_weights strategy_categories))
      (directional_sigs.filter (fun s => sigSideStr s
        = consensus_side_of (net_vote_of directional_sigs strategy_weights
          regime regime_weights strategy_categories)))
      strategy_weights regime regime_weights strategy_categories),
     priorDrops ++ (directional_sigs.filter (fun s => ¬ sigSideStr s
      = consensus_side_of (net_vote_of directional_sigs strategy_weights regime
        regime_weights strategy_categories))).map
      (dropRecord · .conflicting_sides))

/-- `_merge_symbol_signals` from src/src/orchestrator/deconflict.py.  The
source appends drop records to a shared list; the embedding returns the
records appended for this symbol alongside the optional merge. -/
def merge_symbol_signals (symbol : String) (sigs : List Signal)
    (strategy_weights : List (String × ℚ)) (regime : Option String)
    (regime_weights : List (String × List (String × ℚ)))
    (strategy_categories : List (String × String))
    (veto_tags : List String) :
    Option MergedSignal × List DroppedSignal :=
  if veto_hit sigs veto_tags then
    (none, sigs.map (dropRecord · .vetoed))
  else if exit_sigs_of sigs ≠ [] ∧ directional_sigs_of sigs = [] then
    (some (build_exit_merged symbol (exit_sigs_of sigs) strategy_weights
      regime regime_weights strategy_categories), [])
  else if directional_sigs_of sigs = [] ∧ exit_sigs_of sigs = [] then
    (none, [])
  else if exit_sigs_of sigs ≠ [] ∧ directional_sigs_of sigs ≠ [] then
    if group_weight (exit_sigs_of sigs) strategy_weights regime regime_weights
        strategy_categories
      ≥ group_weight (directional_sigs_of sigs) strategy_weights regime
          regime_weights strategy_categories then
      (some (build_exit_merged symbol (exit_sigs_of sigs) strategy_weights
        regime regime_weights strategy_categories),
       (directional_sigs_of sigs).map (dropRecord · .conflicting_sides))
    else
      directional_phase symbol (directional_sigs_of sigs) strategy_weights
        regime regime_weights strategy_categories
        ((exit_sigs_of sigs).map (dropRecord · .conflicting_sides))
  else
    directional_phase symbol (directional_sigs_of sigs) strategy_weights
      regime regime_weights strategy_categories []

/-- The pre-filter of `deconflict_signals`: out-of-universe, zero `alpha_net`
after normalization, zero strength — in that order.  Returns the drop record
when the signal is dropped. -/
def prefilter_signal (univ : List String) (sig : Signal) :
    Option DroppedSignal :=
  if ¬ univ.contains sig.symbol then
    some (dropRecord sig .symbol_excluded)
  else if sig.alpha_net = some 0 then
    some (dropRecord sig .below_cost_threshold)
  else if sig.strength = 0 then
    some (dropRecord sig .zero_strength)
  else
    none

/-- First-occurrence deduplication, matching Python dict insertion order
(`by_symbol` keeps the position of a key's first insertion). -/
def firstOcc : List String → List String
  | [] => []
  | x :: xs => x :: firstOcc (xs.filter (fun y => y ≠ x))
termination_by l => l.length
decreasing_by
  simp only [List.length_cons]
  exact Nat.lt_succ_of_le (xs.length_filter_le _)

/-- Sort key order on merged output:
`(-(abs agg_alpha or abs agg_strength), symbol)` ascending. -/
def mergedSortVal (m : MergedSignal) : ℚ :=
  -(match m.agg_alpha with
    | some a => qabs a
    | none => qabs m.agg_strength)

/-- The lexicographic order used by the final `merged.sort`. -/
def mergedLe (a b : MergedSignal) : Prop :=
  mergedSortVal a < mergedSortVal b ∨
    (mergedSortVal a = mergedSortVal b ∧ a.symbol ≤ b.symbol)

instance : DecidableRel mergedLe := fun a b => by
  unfold mergedLe
  infer_instance

/-- The signals that survive the pre-filter of `deconflict_signals` (those
the loop appends to `by_symbol`). -/
def keptOf (signals : List Signal) (univ : List String) : List Signal :=
  signals.filter (fun s => (prefilter_signal univ s).isNone)

/-- `by_symbol[sym]`: the surviving signals for one symbol, in input
order. -/
def symbolSigs (kept : List Signal) (sym : String) : List Signal :=
  kept.filter (fun s => s.symbol = sym)

/-- One iteration of the per-symbol merge loop of `deconflict_signals`
(accumulating merged signals and drop records). -/
def symbolFoldStep (kept : List Signal) (strategy_weights : List (String × ℚ))
    (regime : Option String)
    (regime_weights : List (String × List (String × ℚ)))
    (strategy_categories : List (String × String)) (veto_tags : List String)
    (acc : List MergedSignal × List DroppedSignal) (sym : String) :
    List MergedSignal × List DroppedSignal :=
  let r := merge_symbol_signals sym (symbolSigs kept sym)
    strategy_weights regime regime_weights strategy_categories veto_tags
  (acc.1 ++ r.1.toList, acc.2 ++ r.2)

/-- The drop record built for one contributor of a merge discarded by the
post-merge alpha-threshold filter. -/
def contribDrop (sym : String) (c : SignalContribution) : DroppedSignal :=
  { strategy_id := c.strategy_id
    symbol := sym
    side := c.side
    strength := c.strength
    confidence := c.confidence
    reason := .below_alpha_threshold }

/-- One iteration of the post-merge alpha-threshold filter loop of
`deconflict_signals`. -/
def alphaFilterStep (min_symbol_alpha : ℚ)
    (acc : List MergedSignal × List DroppedSignal) (m : MergedSignal) :
    List MergedSignal × List DroppedSignal :=
  match m.agg_alpha with
  | some a =>
    if qabs a < min_symbol_alpha then
      (acc.1, acc.2 ++ m.contributions.map (contribDrop m.symbol))
    else (acc.1 ++ [m], acc.2)
  | none => (acc.1 ++ [m], acc.2)

/-- `deconflict_signals` from src/src/orchestrator/deconflict.py.  `sorted`
over dict items and `list.sort` are modelled with `List.insertionSort`
(both are deterministic comparison sorts; the keys involved are distinct, so
the sorted results agree). -/
def deconflict_signals (signals : List Signal) (univ : List String)
    (strategy_weights : List (String × ℚ) := [])
    (regime : Option String := none)
    (regime_weights : List (String × List (String × ℚ)) := [])
    (strategy_categories : List (String × String) := [])
    (veto_tags : List String := ["do_not_trade"])
    (min_symbol_alpha : ℚ := 0) :
    List MergedSignal × List DroppedSignal :=
  let dropped0 := signals.filterMap (prefilter_signal univ)
  let kept := keptOf signals univ
  let syms := (firstOcc (kept.map (·.symbol))).insertionSort (· ≤ ·)
  let afterMerge := syms.foldl
    (symbolFoldStep kept strategy_weights regime regime_weights
      strategy_categories veto_tags) ([], dropped0)
  let afterFilter :=
    if min_symbol_alpha > 0 then
      afterMerge.1.foldl (alphaFilterStep min_symbol_alpha) ([], afterMerge.2)
    else afterMerge
  (afterFilter.1.insertionSort (mergedLe · ·), afterFilter.2)

/-- `SizingMethod` from src/src/orchestrator/models.py (the snapshot
declares only these two members; the vol-targeted method evidenced by the
tests is modelled separately below). -/
inductive SizingMethod where
  | equal_weight
  | signal_weighted
deriving DecidableEq, Repr

/-- `RiskLimits` from src/src/core/config.py, restricted to the fields the
sizer reads. -/
structure RiskLimits where
  max_position_pct : ℚ := 5 / 100
  max_portfolio_exposure_pct : ℚ := 90 / 100
deriving DecidableEq, Repr

/-- `PortfolioState` from src/src/orchestrator/models.py, restricted to the
fields the pipeline reads (`compute_targets` reads only `equity`). -/
structure PortfolioState where
  as_of_ts : ℚ
  equity : ℚ
  cash : ℚ
  buying_power : ℚ
deriving DecidableEq, Repr

/-- `TargetPosition` from src/src/orchestrator/models.py (free-text
`explain` omitted). -/
structure TargetPosition where
  symbol : String
  target_notional : ℚ
  target_pct : ℚ
  confidence : ℚ
  horizon_bars : ℕ
  stop_hint : Option ℚ := none
  tp_hint : Option ℚ := none
  provenance : List SignalContribution := []
deriving DecidableEq, Repr

/-- `_build_target` from src/src/orchestrator/sizing.py. -/
def build_target (merged : MergedSignal) (notional equity : ℚ) :
    TargetPosition :=
  let signed_notional := if merged.side = "long" then notional else -notional
  { symbol := merged.symbol
    target_notional := roundTo 2 signed_notional
    target_pct := if equity > 0 then roundTo 6 (signed_notional / equity) else 0
    confidence := merged.agg_confidence
    horizon_bars := merged.horizon_bars
    stop_hint := merged.stop_hint
    tp_hint := merged.tp_hint
    provenance := merged.contributions }

/-- `_size_equal_weight` from src/src/orchestrator/sizing.py. -/
def size_equal_weight (signals : List MergedSignal)
    (equity max_total max_per_position : ℚ) : List TargetPosition :=
  if signals = [] then []
  else
    let per_position := qmin (max_total / (signals.length : ℚ)) max_per_position
    signals.map (fun m => build_target m per_position equity)

/-- The raw weight of one merged signal in `_size_signal_weighted`:
`abs(agg_alpha)` when present, else `abs(agg_strength) * agg_confidence`. -/
def rawWeight (m : MergedSignal) : ℚ :=
  match m.agg_alpha with
  | some a => qabs a
  | none => qabs m.agg_strength * m.agg_confidence

/-- The floor `1e-12` under which the total raw weight triggers the
equal-weight fallback. -/
def RAW_EPS : ℚ := 1 / 10 ^ 12

/-- The proportional first-pass allocation of `_size_signal_weighted`:
`notionals = [w / total_raw * max_total for w in raw_weights]`. -/
def norm_notionals (raw_weights : List ℚ) (max_total : ℚ) : List ℚ :=
  (raw_weights.map (· / raw_weights.sum)).map (· * max_total)

/-- The capping pass: each notional above the per-position cap is clamped
to it. -/
def cap_notionals (ns : List ℚ) (cap : ℚ) : List ℚ :=
  ns.map (fun n => if n > cap then cap else n)

/-- `excess`: the total capital freed by the capping pass. -/
def excess_of (ns : List ℚ) (cap : ℚ) : ℚ :=
  (ns.map (fun n => if n > cap then n - cap else 0)).sum

/-- `uncapped_count`: how many first-pass notionals were not above the
cap. -/
def uncapped_count_of (ns : List ℚ) (cap : ℚ) : ℕ :=
  (ns.filter (fun n => ¬ n > cap)).length

/-- The single redistribution pass: positions strictly below the cap gain
`bonus`, clamped to the cap. -/
def redistribute (ns : List ℚ) (cap bonus : ℚ) : List ℚ :=
  ns.map (fun n => if n < cap then qmin (n + bonus) cap else n)

/-- The notional per position after allocation, capping and (when capital
was freed and uncapped positions exist) one redistribution pass. -/
def final_notionals (raw_weights : List ℚ) (max_total cap : ℚ) : List ℚ :=
  if excess_of (norm_notionals raw_weights max_total) cap > 0 ∧
      uncapped_count_of (norm_notionals raw_weights max_total) cap > 0 then
    redistribute (cap_notionals (norm_notionals raw_weights max_total) cap) cap
      (excess_of (norm_notionals raw_weights max_total) cap
        / (uncapped_count_of (norm_notionals raw_weights max_total) cap : ℚ))
  else cap_notionals (norm_notionals raw_weights max_total) cap

/-- The cap-and-redistribute allocation pipeline shared by the
signal-weighted (and, per the tests, vol-targeted) sizing methods:
normalize the raw weights, allocate proportionally, cap each position,
redistribute the freed capital once across uncapped positions. -/
def allocate_weighted (signals : List MergedSignal) (raw_weights : List ℚ)
    (equity max_total max_per_position : ℚ) : List TargetPosition :=
  if raw_weights.sum < RAW_EPS then
    size_equal_weight signals equity max_total max_per_position
  else
    (signals.zip (final_notionals raw_weights max_total max_per_position)).map
      (fun p => build_target p.1 p.2 equity)

/-- `_size_signal_weighted` from src/src/orchestrator/sizing.py. -/
def size_signal_weighted (signals : List MergedSignal)
    (equity max_total max_per_position : ℚ) : List TargetPosition :=
  if signals = [] then []
  else
    allocate_weighted signals (signals.map rawWeight)
      equity max_total max_per_position

/-- The volatility used for a symbol: the externally supplied map's entry,
or the configured default when the symbol is missing. -/
def volOf (vol_map : List (String × ℚ)) (default_vol : ℚ) (symbol : String) : ℚ :=
  (vol_map.lookup symbol).getD default_vol

/-- Modelled from the spec: the vol-targeted sizing method ("as
signal-weighted but weight additionally divided by an externally supplied
annualized volatility (missing → configured default), same
capping/redistribution").  `SizingMethod.VOL_TARGET` and its
`_size_vol_target` implementation are exercised by
src/tests/orchestrator/test_sizing.py but missing from the sizing.py and
models.py snapshots under src/. -/
def size_vol_target (signals : List MergedSignal)
    (vol_map : List (String × ℚ)) (default_vol : ℚ)
    (equity max_total max_per_position : ℚ) : List TargetPosition :=
  if signals = [] then []
  else
    allocate_weighted signals
      (signals.map (fun m => rawWeight m / volOf vol_map default_vol m.symbol))
      equity max_total max_per_position

/-- A merged signal whose weight has been divided by its symbol's
volatility, recorded in `agg_alpha` (used to state that vol-targeted sizing
is signal-weighted sizing on vol-adjusted weights). -/
def volAdjust (vol_map : List (String × ℚ)) (dv : ℚ) (m : MergedSignal) :
    MergedSignal :=
  { m with agg_alpha := some (rawWeight m / volOf vol_map dv m.symbol) }

/-- The exit target built by `compute_targets` for a FLAT merged signal
(`target_notional=0` means "close the position"). -/
def exit_target (m : MergedSignal) : TargetPosition :=
  { symbol := m.symbol
    target_notional := 0
    target_pct := 0
    confidence := m.agg_confidence
    horizon_bars := m.horizon_bars
    stop_hint := m.stop_hint
    tp_hint := m.tp_hint
    provenance := m.contributions }

/-- `compute_targets` from src/src/orchestrator/sizing.py. -/
def compute_targets (merged_signals : List MergedSignal)
    (portfolio : PortfolioState) (risk_limits : RiskLimits)
    (method : SizingMethod := .signal_weighted) : List TargetPosition :=
  if merged_signals = [] then []
  else
    let equity := portfolio.equity
    if equity ≤ 0 then []
    else
      let max_notional := equity * risk_limits.max_portfolio_exposure_pct
      let max_per_position := equity * risk_limits.max_position_pct
      let directional := merged_signals.filter (fun m => ¬ m.side = "flat")
      let exits := merged_signals.filter (fun m => m.side = "flat")
      let dirTargets :=
        match method with
        | .equal_weight =>
          size_equal_weight directional equity max_notional max_per_position
        | .signal_weighted =>
          size_signal_weighted directional equity max_notional max_per_position
      dirTargets ++ exits.map exit_target

/-- A value appearing in the list a strategy's decision function returned:
either an actual `Signal` or some other Python object (named by its type). -/
inductive RunItem where
  | sig (s : Signal)
  | notSignal (typeName : String)
deriving DecidableEq, Repr

/-- The value a strategy's decision function returned: a list, or some
non-list Python object (named by its type). -/
inductive RunValue where
  | notAList (typeName : String)
  | items (l : List RunItem)
deriving DecidableEq, Repr

/-- Observable behavior of one strategy's decision function during this
cycle: it returns a value, raises an exception, or exceeds its time budget
(`timesOut` models a call whose wall-clock time exceeds the configured
budget; the budget-less `strategy_timeout_secs=None` mode cannot time
out). -/
inductive RunBehavior where
  | returns (v : RunValue)
  | raisesExc (errType errMsg : String)
  | timesOut
deriving DecidableEq, Repr

/-- `Strategy` from src/src/strategies/base.py, reduced to its stable
identity plus the behavior of its decision function this cycle. -/
structure Strategy where
  strategy_id : String
  version : String
  behavior : RunBehavior
deriving DecidableEq, Repr

/-- `StrategyRunError` from src/src/strategies/runner.py. -/
structure StrategyRunError where
  strategy_id : String
  version : String
  error_type : String
  error_message : String
deriving DecidableEq, Repr

/-- The item loop of `_validate_signals`: the first offending item (not a
`Signal`, or a `Signal` with a mismatched `strategy_id`) yields the
`StrategyError` message. -/
def validate_items (strategy_id : String) : List RunItem → Option String
  | [] => none
  | .notSignal t :: _ =>
    some (strategy_id ++ ".run() emitted " ++ t ++ ", expected Signal")
  | .sig s :: rest =>
    if ¬ s.strategy_id = strategy_id then
      some ("Signal strategy_id " ++ s.strategy_id ++ " does not match "
        ++ strategy_id)
    else validate_items strategy_id rest

/-- `_validate_signals` from src/src/strategies/runner.py: `.error msg`
models a raised `StrategyError(msg)`. -/
def validate_signals (v : RunValue) (strategy_id : String) :
    Except String (List Signal) :=
  match v with
  | .notAList t =>
    .error (strategy_id ++ ".run() returned " ++ t ++ ", expected list")
  | .items l =>
    match validate_items strategy_id l with
    | some msg => .error msg
    | none =>
      .ok (l.filterMap (fun i =>
        match i with
        | .sig s => some s
        | .notSignal _ => none))

/-- `_execute_strategy` from src/src/strategies/runner.py, as the
classification of one strategy call: a timeout becomes a `TimeoutError`
record, a raised exception becomes a record carrying its type name and
message (a `StrategyError` from validation included), and a valid return
yields the signals.  (The f-string's seconds value is omitted from the
timeout message.) -/
def execute_strategy (st : Strategy) :
    Except StrategyRunError (List Signal) :=
  match st.behavior with
  | .timesOut =>
    .error ⟨st.strategy_id, st.version, "TimeoutError",
      st.strategy_id ++ " exceeded time budget"⟩
  | .raisesExc ty msg =>
    .error ⟨st.strategy_id, st.version, ty, msg⟩
  | .returns v =>
    match validate_signals v st.strategy_id with
    | .error msg => .error ⟨st.strategy_id, st.version, "StrategyError", msg⟩
    | .ok sigs => .ok sigs

/-- `RunResult` from src/src/strategies/runner.py (`elapsed_ms` omitted). -/
structure RunResult where
  signals : List Signal
  errors : List StrategyRunError
  strategies_run : ℕ
deriving DecidableEq, Repr

/-- `Signal._sort_key` order: highest `|strength|` first, then highest
confidence, then symbol ascending. -/
def signalLe (a b : Signal) : Prop :=
  -qabs a.strength < -qabs b.strength ∨
    (-qabs a.strength = -qabs b.strength ∧
      (-a.confidence < -b.confidence ∨
        (-a.confidence = -b.confidence ∧ a.symbol ≤ b.symbol)))

instance : DecidableRel signalLe := fun a b => by
  unfold signalLe
  infer_instance

/-- One iteration of the sequential phase-2 loop of `run_strategies`:
extend the pooled signals on success, append a structured error record on
failure. -/
def runStep (acc : List Signal × List StrategyRunError) (st : Strategy) :
    List Signal × List StrategyRunError :=
  match execute_strategy st with
  | .ok sigs => (acc.1 ++ sigs, acc.2)
  | .error e => (acc.1, acc.2 ++ [e])

/-- Phase 2 + 3 of `run_strategies` from src/src/strategies/runner.py on the
sequential path (`max_workers ≤ 1`): execute each strategy in order,
collecting signals and structured errors, then sort the pooled signals. -/
def run_strategies (strategies : List Strategy) : RunResult :=
  let r := strategies.foldl runStep
    (([], []) : List Signal × List StrategyRunError)
  { signals := r.1.insertionSort (signalLe · ·)
    errors := r.2
    strategies_run := strategies.length }

/-- `EvalTimestampResult` from src/src/orchestrator/timestamp.py. -/
structure EvalTimestampResult where
  eval_ts : ℚ
  fresh_symbols : List String := []
  stale_symbols : List String := []
  missing_symbols : List String := []
deriving DecidableEq, Repr

/-- Python `max` over a nonempty list (`[]` is never reached at call
sites). -/
def listMax : List ℚ → ℚ
  | [] => 0
  | x :: xs => xs.foldl qmax x

/-- Python `min` over a nonempty list (`[]` is never reached at call
sites). -/
def listMin : List ℚ → ℚ
  | [] => 0
  | x :: xs => xs.foldl qmin x

/-- The keys of `latest_map` (symbols with at least one bar), in first-query
order. -/
def dataSymsOf (latest : String → String → Option ℚ) (symbols : List String)
    (timeframe : String) : List String :=
  firstOcc (symbols.filter (fun s => (latest s timeframe).isSome))

/-- `latest_map[sym]` (defaulting to 0; only applied to symbols with
data). -/
def latestTs (latest : String → String → Option ℚ) (timeframe : String)
    (s : String) : ℚ :=
  (latest s timeframe).getD 0

/-- `freshest_ts = max(latest_map.values())`. -/
def freshestOf (latest : String → String → Option ℚ) (symbols : List String)
    (timeframe : String) : ℚ :=
  listMax ((dataSymsOf latest symbols timeframe).map (latestTs latest timeframe))

/-- The symbols classified fresh: all data symbols when no staleness bound
is set, else those whose minutes-lag behind the freshest is within it. -/
def fresh_syms_of (latest : String → String → Option ℚ)
    (symbols : List String) (timeframe : String)
    (max_staleness_minutes : Option ℚ) : List String :=
  match max_staleness_minutes with
  | some m =>
    (dataSymsOf latest symbols timeframe).filter (fun s =>
      ¬ (freshestOf latest symbols timeframe - latestTs latest timeframe s) / 60 > m)
  | none => dataSymsOf latest symbols timeframe

/-- The symbols classified stale (empty when no staleness bound is set). -/
def stale_syms_of (latest : String → String → Option ℚ)
    (symbols : List String) (timeframe : String)
    (max_staleness_minutes : Option ℚ) : List String :=
  match max_staleness_minutes with
  | some m =>
    (dataSymsOf latest symbols timeframe).filter (fun s =>
      (freshestOf latest symbols timeframe - latestTs latest timeframe s) / 60 > m)
  | none => []

/-- `resolve_eval_ts` from src/src/orchestrator/timestamp.py.  The SQLite
query `SELECT MAX(ts) FROM bars WHERE symbol=? AND timeframe=?` is modelled
by the function `latest : symbol → timeframe → Option ℚ`; `datetime.now(utc)`
by the `now` parameter; timestamps are seconds, so the staleness delta in
minutes divides by 60. -/
def resolve_eval_ts (latest : String → String → Option ℚ)
    (symbols : List String) (timeframe : String)
    (max_staleness_minutes : Option ℚ) (now : ℚ) : EvalTimestampResult :=
  if symbols = [] then { eval_ts := now }
  else if dataSymsOf latest symbols timeframe = [] then
    { eval_ts := now
      missing_symbols := symbols.filter (fun s => (latest s timeframe).isNone) }
  else
    { eval_ts :=
        if fresh_syms_of latest symbols timeframe max_staleness_minutes ≠ [] then
          listMin ((fresh_syms_of latest symbols timeframe
            max_staleness_minutes).map (latestTs latest timeframe))
        else freshestOf latest symbols timeframe
      fresh_symbols := fresh_syms_of latest symbols timeframe max_staleness_minutes
      stale_symbols := stale_syms_of latest symbols timeframe max_staleness_minutes
      missing_symbols := symbols.filter (fun s => (latest s timeframe).isNone) }

/-- `ExclusionReason` from src/src/orchestrator/models.py. -/
inductive ExclusionReason where
  | below_min_price
  | below_min_volume
  | insufficient_data
  | manually_excluded
  | max_names_exceeded
  | data_too_stale
deriving DecidableEq, Repr

/-- `SymbolExclusion` from src/src/orchestrator/models.py (free-text
`detail` omitted). -/
structure SymbolExclusion where
  symbol : String
  reason : ExclusionReason
deriving DecidableEq, Repr

/-- `UniverseResult` from src/src/orchestrator/models.py. -/
structure UniverseResult where
  included : List String
  excluded : List SymbolExclusion := []
deriving DecidableEq, Repr

/-- `OrchestratorConfig` from src/src/core/config.py. -/
structure OrchestratorConfig where
  max_staleness : List (String × ℚ) := [("1Day", 2880), ("5Min", 30)]
  max_stale_pct : ℚ := 50 / 100
  primary_timeframe : String := "1Day"
deriving DecidableEq, Repr

/-- `PortfolioIntent` from src/src/orchestrator/models.py (generated
`intent_id`, `strategy_run_id`, wall-clock `elapsed_ms` and free-text
`explain` omitted; the `universe` field is spelled `universe_result` because
`universe` is a Lean keyword). -/
structure PortfolioIntent where
  as_of_ts : ℚ
  portfolio_state : PortfolioState
  universe_result : UniverseResult
  signals_used : List MergedSignal := []
  signals_dropped : List DroppedSignal := []
  targets : List TargetPosition := []
  sizing_method : SizingMethod := .signal_weighted
  trade_allowed : Bool := true
deriving DecidableEq, Repr

/-- Steps 1–5 of `orchestrate` from src/src/orchestrator/orchestrate.py
(universe filter → strategies → deconflict → sizing → intent assembly).
The DB-backed universe filter is modelled by the `filterUni` collaborator
function. -/
def orchestrate_pipeline (strategies : List Strategy)
    (filterUni : List String → UniverseResult)
    (portfolio : PortfolioState) (risk_limits : RiskLimits)
    (strategy_weights : List (String × ℚ)) (sizing_method : SizingMethod)
    (univ : List String) (stale_exclusions : List SymbolExclusion)
    (eval_ts : ℚ) : PortfolioIntent :=
  let ur0 := filterUni univ
  let universe_result :=
    if stale_exclusions ≠ [] then
      { included := ur0.included, excluded := stale_exclusions ++ ur0.excluded }
    else ur0
  let run_result := run_strategies strategies
  let dec := deconflict_signals run_result.signals universe_result.included
    strategy_weights
  let targets := compute_targets dec.1 portfolio risk_limits sizing_method
  { as_of_ts := eval_ts
    portfolio_state := portfolio
    universe_result := universe_result
    signals_used := dec.1
    signals_dropped := dec.2
    targets := targets
    sizing_method := sizing_method
    trade_allowed := true }

/-- `orchestrate` from src/src/orchestrator/orchestrate.py.  The SQLite
connection is modelled by the `latest` bar-timestamp function (step 0) and
the `filterUni` collaborator (step 1); `persist` side effects are out of
scope.  With a `now_ts` override, step 0's staleness gate is skipped
exactly as in the source. -/
def orchestrate (strategies : List Strategy) (univ : List String)
    (latest : String → String → Option ℚ)
    (filterUni : List String → UniverseResult)
    (portfolio : PortfolioState) (risk_limits : RiskLimits)
    (now_ts : Option ℚ := none)
    (orch_cfg : OrchestratorConfig := {})
    (strategy_weights : List (String × ℚ) := [])
    (sizing_method : SizingMethod := .signal_weighted)
    (wallclock : ℚ := 0) : PortfolioIntent :=
  match now_ts with
  | some ts =>
    orchestrate_pipeline strategies filterUni portfolio risk_limits
      strategy_weights sizing_method univ [] ts
  | none =>
    let timeframe := orch_cfg.primary_timeframe
    let max_stale_min := orch_cfg.max_staleness.lookup timeframe
    let ts_result := resolve_eval_ts latest univ timeframe max_stale_min wallclock
    let bad_count := ts_result.stale_symbols.length + ts_result.missing_symbols.length
    if univ ≠ [] ∧ (bad_count : ℚ) / (univ.length : ℚ) > orch_cfg.max_stale_pct then
      { as_of_ts := ts_result.eval_ts
        portfolio_state := portfolio
        universe_result := { included := [] }
        sizing_method := sizing_method
        trade_allowed := false }
    else
      let stale_exclusions :=
        ts_result.stale_symbols.map
          (fun s => ({ symbol := s, reason := .data_too_stale } : SymbolExclusion)) ++
        ts_result.missing_symbols.map
          (fun s => ({ symbol := s, reason := .data_too_stale } : SymbolExclusion))
      let univ2 := univ.filter (fun s =>
        ¬ (ts_result.stale_symbols.contains s ∨ ts_result.missing_symbols.contains s))
      orchestrate_pipeline strategies filterUni portfolio risk_limits
        strategy_weights sizing_method univ2 stale_exclusions ts_result.eval_ts

/-! ### Concrete cycle inputs used by counterexamples and witnesses -/

/-- A veto-tagged exit signal whose strength is exactly zero. -/
def vetoZeroSig : Signal :=
  { strategy_id := "risk_tool", symbol := "AAPL", side := .flat,
    strength := 0, confidence := 1, horizon_bars := 1,
    tags := ["do_not_trade"] }

/-- A veto-tagged exit signal with nonzero strength. -/
def vetoSig : Signal :=
  { strategy_id := "risk_tool", symbol := "AAPL", side := .flat,
    strength := -1/2, confidence := 1, horizon_bars := 1,
    tags := ["do_not_trade"] }

/-- An ordinary long signal on AAPL. -/
def longSigA : Signal :=
  { strategy_id := "strat_a", symbol := "AAPL", side := .long,
    strength := 4/5, confidence := 9/10, horizon_bars := 5 }

/-- A short signal on AAPL with the same effective weight as `longSigA`. -/
def shortSigB : Signal :=
  { strategy_id := "strat_b", symbol := "AAPL", side := .short,
    strength := -4/5, confidence := 9/10, horizon_bars := 5 }

/-- A signal whose normalized net alpha was zeroed by cost. -/
def costEatenSig : Signal :=
  { strategy_id := "strat_c", symbol := "AAPL", side := .long,
    strength := 3/5, confidence := 1/2, horizon_bars := 3,
    alpha_net := some 0 }

/-- A normalized long signal on AAPL carrying net alpha 3/10. -/
def alphaSigA : Signal :=
  { strategy_id := "strat_a", symbol := "AAPL", side := .long,
    strength := 4/5, confidence := 9/10, horizon_bars := 5,
    alpha_net := some (3/10) }

/-- A normalized long signal on AAPL carrying net alpha 1/5. -/
def alphaSigB : Signal :=
  { strategy_id := "strat_b", symbol := "AAPL", side := .long,
    strength := 3/5, confidence := 4/5, horizon_bars := 10,
    alpha_net := some (1/5) }

/-- A directional long merged signal on AAPL. -/
def mergedAAPL : MergedSignal :=
  { symbol := "AAPL", side := "long", agg_strength := 4/5,
    agg_confidence := 9/10, horizon_bars := 5 }

/-- A directional long merged signal on MSFT. -/
def mergedMSFT : MergedSignal :=
  { symbol := "MSFT", side := "long", agg_strength := 4/5,
    agg_confidence := 9/10, horizon_bars := 5 }

/-- A portfolio with equity 100,000. -/
def portfolio100k : PortfolioState :=
  { as_of_ts := 0, equity := 100000, cash := 50000, buying_power := 50000 }

/-- A portfolio with zero equity. -/
def portfolioZero : PortfolioState :=
  { as_of_ts := 0, equity := 0, cash := 0, buying_power := 0 }

/-- Scenario C risk limits: position cap 5%, exposure cap 90%. -/
def riskScenarioC : RiskLimits :=
  { max_position_pct := 5/100, max_portfolio_exposure_pct := 90/100 }

/-- The targets computed in Scenario C (two directional merged signals,
equity 100,000, position cap 0.05, exposure cap 0.90, equal-weight). -/
def scenarioCTargets : List TargetPosition :=
  compute_targets [mergedAAPL, mergedMSFT] portfolio100k riskScenarioC
    .equal_weight

/-- Scenario D universe: three symbols of which only AAPL has bars. -/
def scenarioDUniverse : List String := ["AAPL", "MSFT", "GOOG"]

/-- Scenario D bar store: only AAPL has a latest daily bar (at t = 86,400
seconds). -/
def scenarioDLatest (s : String) (_tf : String) : Option ℚ :=
  if s = "AAPL" then some 86400 else none

/-- A bar store where AAPL's latest bar is at t = 7,200s, MSFT's at t = 0
(120 minutes behind), and GOOG has no bars. -/
def c9Latest (s : String) (_tf : String) : Option ℚ :=
  if s = "AAPL" then some 7200 else if s = "MSFT" then some 0 else none

/-- A strategy that returns one valid signal. -/
def okStrategy : Strategy :=
  { strategy_id := "strat_a", version := "1.0.0",
    behavior := .returns (.items [.sig longSigA]) }

/-- A strategy whose decision function raises `ValueError("boom")`. -/
def raisingStrategy : Strategy :=
  { strategy_id := "strat_bad", version := "0.1.0",
    behavior := .raisesExc "ValueError" "boom" }

/-- A strategy whose decision function exceeds its time budget. -/
def slowStrategy : Strategy :=
  { strategy_id := "strat_slow", version := "2.0.0",
    behavior := .timesOut }

/-- A strategy that emits a signal carrying another strategy's id. -/
def imposterStrategy : Strategy :=
  { strategy_id := "strat_x", version := "1.0.0",
    behavior := .returns (.items [.sig longSigA]) }

instance : IsTotal MergedSignal mergedLe :=
  ⟨fun a b => by
    unfold mergedLe
    rcases lt_trichotomy (mergedSortVal a) (mergedSortVal b) with h | h | h
    · exact Or.inl (Or.inl h)
    · rcases le_total a.symbol b.symbol with hs | hs
      · exact Or.inl (Or.inr ⟨h, hs⟩)
      · exact Or.inr (Or.inr ⟨h.symm, hs⟩)
    · exact Or.inr (Or.inl h)⟩

instance : IsTrans MergedSignal mergedLe :=
  ⟨fun a b c hab hbc => by
    unfold mergedLe at *
    rcases hab with h1 | ⟨h1, h1s⟩
    · rcases hbc with h2 | ⟨h2, _⟩
      · exact Or.inl (h1.trans h2)
      · exact Or.inl (h2 ▸ h1)
    · rcases hbc with h2 | ⟨h2, h2s⟩
      · exact Or.inl (h1 ▸ h2)
      · exact Or.inr ⟨h1.trans h2, h1s.trans h2s⟩⟩

/-!
## Theorems

Each claim of the specification is settled by one theorem below (plus a
counterexample and a witness where applicable).
-/

/-- C6: with two directional merged signals, equity 100,000, position cap
0.05, exposure cap 0.90 and equal-weight sizing, each target's absolute
notional is exactly 5,000 — which is NOT approximately 4,500 (it misses by
500, more than 1% of 4,500) — refuting the claimed "each target ≈ 4,500". -/
theorem c6_counterexample :
    scenarioCTargets.map (·.target_notional) = [5000, 5000] ∧
    (4500 : ℚ) + 45 < 5000 := by
  constructor
  · simp [scenarioCTargets, compute_targets, portfolio100k, riskScenarioC,
      size_equal_weight, build_target, roundTo, qround, qfloor, qmin,
      mergedAAPL, mergedMSFT]
    norm_num
  · norm_num

/-- C6 (amended): with two directional merged signals, equity 100,000,
position cap 0.05, exposure cap 0.90 and equal-weight sizing, each target's
absolute notional is exactly 5,000 = min(90,000/2, 5,000), and in particular
both are at most 5,000. -/
theorem c6_theorem :
    scenarioCTargets.map (fun t => qabs t.target_notional) = [5000, 5000] ∧
    (5000 : ℚ) ≤ 5000 := by
  constructor
  · simp [scenarioCTargets, compute_targets, portfolio100k, riskScenarioC,
      size_equal_weight, build_target, roundTo, qround, qfloor, qmin, qabs,
      mergedAAPL, mergedMSFT]
    norm_num
  · norm_num

theorem mergeFold_alpha (sw : List (String × ℚ)) (regime : Option String)
    (rw : List (String × List (String × ℚ))) (sc : List (String × String))
    (side : String) (sigs : List Signal) :
    ∀ acc : MergeAcc,
      ((sigs.foldl (mergeStep sw regime rw sc side) acc).sum_alpha
        = acc.sum_alpha + (sigs.map (fun s => s.alpha_net.getD 0)).sum) ∧
      ((sigs.foldl (mergeStep sw regime rw sc side) acc).has_alpha
        = (acc.has_alpha || sigs.any (fun s => s.alpha_net.isSome))) := by
  induction sigs with
  | nil => intro acc; simp
  | cons s rest ih =>
    intro acc
    simp only [List.foldl_cons, List.map_cons, List.sum_cons, List.any_cons]
    refine ⟨?_, ?_⟩
    · rw [(ih _).1]
      cases h : s.alpha_net <;> (simp [mergeStep, h]; try ring)
    · rw [(ih _).2]
      cases h : s.alpha_net <;> simp [mergeStep, h, Bool.or_assoc]

/-- C3: whenever every same-side contributing signal carries net alpha, the
merged signal built by `_build_directional_merged` carries
`agg_alpha` equal to the SUM of the contributors' `alpha_net` values (not
their average). -/
theorem c3_theorem (symbol side : String) (sigs : List Signal)
    (sw : List (String × ℚ)) (regime : Option String)
    (rw : List (String × List (String × ℚ))) (sc : List (String × String))
    (hne : sigs ≠ [])
    (hall : ∀ s ∈ sigs, (s.alpha_net).isSome = true) :
    (build_directional_merged symbol side sigs sw regime rw sc).agg_alpha
      = some ((sigs.map (fun s => s.alpha_net.getD 0)).sum) := by
  have h := mergeFold_alpha sw regime rw sc side sigs MergeAcc.init
  have hany : sigs.any (fun s => s.alpha_net.isSome) = true := by
    rcases sigs with _ | ⟨s, rest⟩
    · exact absurd rfl hne
    · simp only [List.any_cons, Bool.or_eq_true]
      exact Or.inl (hall s (by simp))
  simp only [build_directional_merged]
  rw [h.2, h.1]
  simp [MergeAcc.init, hany]

/-- C3 witness: two agreeing long signals with net alphas 3/10 and 1/5 merge
with aggregate net alpha exactly 1/2 (their sum — the average would be
1/4). -/
theorem c3_witness :
    (build_directional_merged "AAPL" "long" [alphaSigA, alphaSigB]
        [] none [] []).agg_alpha = some (1/2) := by
  have h := c3_theorem "AAPL" "long" [alphaSigA, alphaSigB] [] none [] []
    (by simp) (by
      intro s hs
      simp only [List.mem_cons, List.mem_singleton, List.not_mem_nil, or_false]
        at hs
      rcases hs with h | h <;> subst h <;> simp [alphaSigA, alphaSigB])
  rw [h]
  norm_num [alphaSigA, alphaSigB]

theorem symbolFold_drops_mono (kept : List Signal) (sw : List (String × ℚ))
    (regime : Option String) (rw : List (String × List (String × ℚ)))
    (sc : List (String × String)) (vt : List String) :
    ∀ (syms : List String) (acc : List MergedSignal × List DroppedSignal),
      acc.2 ⊆ (syms.foldl (symbolFoldStep kept sw regime rw sc vt) acc).2 := by
  intro syms
  induction syms with
  | nil => intro acc; simp
  | cons sym rest ih =>
    intro acc
    simp only [List.foldl_cons]
    intro d hd
    exact ih _ (by simp [symbolFoldStep, hd])

theorem alphaFilter_drops_mono (msa : ℚ) :
    ∀ (ms : List MergedSignal) (acc : List MergedSignal × List DroppedSignal),
      acc.2 ⊆ (ms.foldl (alphaFilterStep msa) acc).2 := by
  intro ms
  induction ms with
  | nil => intro acc; simp
  | cons m rest ih =>
    intro acc
    simp only [List.foldl_cons]
    intro d hd
    refine ih _ ?_
    unfold alphaFilterStep
    cases h : m.agg_alpha with
    | none => simpa using hd
    | some a =>
      by_cases hlt : qabs a < msa
      · simp [hlt, hd]
      · simp [hlt, hd]

/-- The drop records produced by the pre-filter all appear in the final
dropped list of `deconflict_signals`. -/
theorem deconflict_prefilter_drops (signals : List Signal) (univ : List String)
    (sw : List (String × ℚ)) (regime : Option String)
    (rw : List (String × List (String × ℚ))) (sc : List (String × String))
    (vt : List String) (msa : ℚ) (d : DroppedSignal)
    (hd : d ∈ signals.filterMap (prefilter_signal univ)) :
    d ∈ (deconflict_signals signals univ sw regime rw sc vt msa).2 := by
  have h1 : d ∈ (((firstOcc ((keptOf signals univ).map (fun s => s.symbol))).insertionSort
      (· ≤ ·)).foldl (symbolFoldStep (keptOf signals univ) sw regime rw sc vt)
      ([], signals.filterMap (prefilter_signal univ))).2 :=
    symbolFold_drops_mono _ _ _ _ _ _ _ _ hd
  simp only [deconflict_signals]
  by_cases hmsa : msa > 0
  · simp only [hmsa, if_true]
    exact alphaFilter_drops_mono msa _ _ h1
  · simp only [hmsa, if_false]
    exact h1

/-- C2: the sizing and deconfliction edge cases produce typed drop reasons
or empty outputs rather than exceptions (the embedded functions are total):
(i) zero equity yields no targets; (ii) a vetoed symbol yields no merge and
`vetoed` drops for every signal; (iii) a zero net directional vote yields no
merge and `conflicting_sides` drops; (iv) a signal whose alpha was fully
consumed by cost is dropped with `below_cost_threshold`. -/
theorem c2_theorem (merged : List MergedSignal) (portfolio : PortfolioState)
    (risk : RiskLimits) (method : SizingMethod) (sym : String)
    (sigs : List Signal) (sw : List (String × ℚ)) (regime : Option String)
    (rw : List (String × List (String × ℚ))) (sc : List (String × String))
    (vt : List String) (signals : List Signal) (univ : List String)
    (s : Signal) (msa : ℚ) :
    (portfolio.equity = 0 → compute_targets merged portfolio risk method = []) ∧
    (sigs.any (fun g => g.tags.any (fun t => vt.contains t)) = true →
      merge_symbol_signals sym sigs sw regime rw sc vt
        = (none, sigs.map (dropRecord · .vetoed))) ∧
    (sigs ≠ [] →
      sigs.any (fun g => g.tags.any (fun t => vt.contains t)) = false →
      (∀ g ∈ sigs, isExitSignal g = false) →
      (sigs.map (fun g =>
        net_vote_contribution g sw (regime_multiplier g regime rw sc))).sum = 0 →
      merge_symbol_signals sym sigs sw regime rw sc vt
        = (none, sigs.map (dropRecord · .conflicting_sides))) ∧
    (s ∈ signals → univ.contains s.symbol = true → s.alpha_net = some 0 →
      dropRecord s .below_cost_threshold
        ∈ (deconflict_signals signals univ sw regime rw sc vt msa).2) := by
  refine ⟨?_, ?_, ?_, ?_⟩
  · intro heq
    simp [compute_targets, heq]
  · intro hveto
    unfold merge_symbol_signals veto_hit
    rw [hveto]
    simp
  · intro _hne hveto hdir hvote
    have hexit : exit_sigs_of sigs = [] := by
      rw [exit_sigs_of, List.filter_eq_nil_iff]
      intro g hg
      simp [hdir g hg]
    have hdirall : directional_sigs_of sigs = sigs := by
      rw [directional_sigs_of, List.filter_eq_self]
      intro g hg
      simp [hdir g hg]
    have hvh : veto_hit sigs vt = false := by rw [veto_hit]; exact hveto
    have hvote2 : net_vote_of sigs sw regime rw sc = 0 := by
      rw [net_vote_of]; exact hvote
    unfold merge_symbol_signals
    simp only [hvh, Bool.false_eq_true, if_false, hexit, hdirall]
    rcases sigs with _ | ⟨g, rest⟩
    · simp [directional_phase, net_vote_of, qabs, VOTE_EPS]
    · simp only [ne_eq, reduceCtorEq, not_false_eq_true, and_false, and_true,
        if_false, false_and]
      unfold directional_phase
      rw [hvote2]
      have : qabs 0 < VOTE_EPS := by norm_num [qabs, VOTE_EPS]
      simp [this]
  · intro hmem hcont halpha
    apply deconflict_prefilter_drops
    rw [List.mem_filterMap]
    refine ⟨s, hmem, ?_⟩
    have hmem2 : s.symbol ∈ univ := by simpa using hcont
    unfold prefilter_signal
    simp [hmem2, halpha]

/-- C2 witness: the four edge cases at concrete inputs — zero equity, a
vetoed AAPL, a perfectly cancelling long/short pair, and a cost-consumed
signal. -/
theorem c2_witness :
    compute_targets [mergedAAPL] portfolioZero {} .signal_weighted = [] ∧
    merge_symbol_signals "AAPL" [vetoSig, longSigA] [] none [] []
        ["do_not_trade"]
      = (none, [dropRecord vetoSig .vetoed, dropRecord longSigA .vetoed]) ∧
    merge_symbol_signals "AAPL" [longSigA, shortSigB] [] none [] []
        ["do_not_trade"]
      = (none, [dropRecord longSigA .conflicting_sides,
                dropRecord shortSigB .conflicting_sides]) ∧
    dropRecord costEatenSig .below_cost_threshold
      ∈ (deconflict_signals [costEatenSig] ["AAPL"] [] none [] []
          ["do_not_trade"] 0).2 := by
  refine ⟨?_, ?_, ?_, ?_⟩
  · exact (c2_theorem [mergedAAPL] portfolioZero {} .signal_weighted "A" []
      [] none [] [] [] [] [] vetoSig 0).1 rfl
  · have h := (c2_theorem [] portfolioZero {} .signal_weighted "AAPL"
      [vetoSig, longSigA] [] none [] [] ["do_not_trade"] [] [] vetoSig 0).2.1
      (by simp [vetoSig, longSigA])
    rw [h]
    simp
  · have h := (c2_theorem [] portfolioZero {} .signal_weighted "AAPL"
      [longSigA, shortSigB] [] none [] [] ["do_not_trade"] [] [] vetoSig 0).2.2.1
      (by simp)
      (by simp [vetoSig, longSigA, shortSigB])
      (by
        intro g hg
        simp only [List.mem_cons, List.mem_singleton, List.not_mem_nil,
          or_false] at hg
        rcases hg with h | h <;> subst h <;>
          simp [isExitSignal, longSigA, shortSigB])
      (by
        simp only [List.map_cons, List.map_nil, List.sum_cons, List.sum_nil]
        norm_num [net_vote_contribution, regime_multiplier, longSigA,
          shortSigB, qabs, DEFAULT_STRATEGY_WEIGHT]
        rw [if_neg (by intro h; exact Side.noConfusion h)]
        norm_num)
    rw [h]
    simp
  · exact (c2_theorem [] portfolioZero {} .signal_weighted "AAPL" [] [] none
      [] [] ["do_not_trade"] [costEatenSig] ["AAPL"] costEatenSig 0).2.2.2
      (by simp) (by simp [costEatenSig]) rfl

theorem mem_firstOcc (a : String) : ∀ (l : List String), a ∈ firstOcc l ↔ a ∈ l := by
  intro l
  induction l using firstOcc.induct with
  | case1 => simp [firstOcc]
  | case2 x xs ih =>
    rw [firstOcc]
    simp only [List.mem_cons, ih, List.mem_filter]
    constructor
    · rintro (rfl | ⟨h, _⟩)
      · exact Or.inl rfl
      · exact Or.inr h
    · rintro (rfl | h)
      · exact Or.inl rfl
      · by_cases hax : a = x
        · exact Or.inl hax
        · exact Or.inr ⟨h, by simpa using hax⟩

/-- Veto branch of `_merge_symbol_signals`: one veto tag drops everything for
the symbol. -/
theorem merge_veto (sym : String) (sigs : List Signal)
    (sw : List (String × ℚ)) (regime : Option String)
    (rw : List (String × List (String × ℚ))) (sc : List (String × String))
    (vt : List String)
    (hveto : sigs.any (fun g => g.tags.any (fun t => vt.contains t)) = true) :
    merge_symbol_signals sym sigs sw regime rw sc vt
      = (none, sigs.map (dropRecord · .vetoed)) := by
  unfold merge_symbol_signals veto_hit
  rw [hveto]
  simp

/-- Every merged signal produced by `_merge_symbol_signals` is labelled with
the processed symbol. -/
theorem merge_some_symbol (sym : String) (sigs : List Signal)
    (sw : List (String × ℚ)) (regime : Option String)
    (rw : List (String × List (String × ℚ))) (sc : List (String × String))
    (vt : List String) (m : MergedSignal)
    (h : (merge_symbol_signals sym sigs sw regime rw sc vt).1 = some m) :
    m.symbol = sym := by
  unfold merge_symbol_signals directional_phase at h
  repeat' split at h
  all_goals first
    | exact Option.noConfusion h
    | (rw [← Option.some.inj h]; rfl)

theorem symbolFold_fst_mem (kept : List Signal) (sw : List (String × ℚ))
    (regime : Option String) (rw : List (String × List (String × ℚ)))
    (sc : List (String × String)) (vt : List String) :
    ∀ (syms : List String) (acc : List MergedSignal × List DroppedSignal)
      (m : MergedSignal),
      m ∈ (syms.foldl (symbolFoldStep kept sw regime rw sc vt) acc).1 →
      m ∈ acc.1 ∨ ∃ sym ∈ syms,
        (merge_symbol_signals sym (symbolSigs kept sym) sw regime rw sc vt).1
          = some m := by
  intro syms
  induction syms with
  | nil => intro acc m hm; exact Or.inl hm
  | cons sym rest ih =>
    intro acc m hm
    simp only [List.foldl_cons] at hm
    rcases ih _ m hm with hacc | ⟨sym', hsym', hmerge⟩
    · simp only [symbolFoldStep, List.mem_append] at hacc
      rcases hacc with h | h
      · exact Or.inl h
      · refine Or.inr ⟨sym, by simp, ?_⟩
        rcases ho : (merge_symbol_signals sym (symbolSigs kept sym)
          sw regime rw sc vt).1 with _ | m'
        · rw [ho] at h; simp at h
        · rw [ho] at h; simp at h; rw [h]
    · exact Or.inr ⟨sym', by simp [hsym'], hmerge⟩

theorem symbolFold_snd_mem (kept : List Signal) (sw : List (String × ℚ))
    (regime : Option String) (rw : List (String × List (String × ℚ)))
    (sc : List (String × String)) (vt : List String) (d : DroppedSignal)
    (sym : String) :
    ∀ (syms : List String) (acc : List MergedSignal × List DroppedSignal),
      sym ∈ syms →
      d ∈ (merge_symbol_signals sym (symbolSigs kept sym) sw regime rw sc vt).2 →
      d ∈ (syms.foldl (symbolFoldStep kept sw regime rw sc vt) acc).2 := by
  intro syms
  induction syms with
  | nil => intro acc h; simp at h
  | cons sym' rest ih =>
    intro acc hmem hd
    simp only [List.foldl_cons]
    rcases List.mem_cons.mp hmem with rfl | hrest
    · exact symbolFold_drops_mono _ _ _ _ _ _ rest _
        (by simp [symbolFoldStep, hd])
    · exact ih _ hrest hd

theorem alphaFilter_fst_mem (msa : ℚ) :
    ∀ (ms : List MergedSignal) (acc : List MergedSignal × List DroppedSignal)
      (m : MergedSignal),
      m ∈ (ms.foldl (alphaFilterStep msa) acc).1 → m ∈ acc.1 ∨ m ∈ ms := by
  intro ms
  induction ms with
  | nil => intro acc m hm; exact Or.inl hm
  | cons m' rest ih =>
    intro acc m hm
    simp only [List.foldl_cons] at hm
    rcases ih _ m hm with hacc | hrest
    · rcases h : m'.agg_alpha with _ | a
      · simp only [alphaFilterStep, h] at hacc
        rcases List.mem_append.mp hacc with h' | h'
        · exact Or.inl h'
        · exact Or.inr (by simp [List.mem_singleton.mp h'])
      · simp only [alphaFilterStep, h] at hacc
        by_cases hlt : qabs a < msa
        · rw [if_pos hlt] at hacc
          exact Or.inl hacc
        · rw [if_neg hlt] at hacc
          rcases List.mem_append.mp hacc with h' | h'
          · exact Or.inl h'
          · exact Or.inr (by simp [List.mem_singleton.mp h'])
    · exact Or.inr (by simp [hrest])

/-- C1 counterexample: `vetoZeroSig` is a veto-tagged AAPL signal with zero
strength; on input `[vetoZeroSig, longSigA]` the zero-strength pre-filter
drops it with reason `zero_strength` (not `vetoed`) BEFORE the veto check
runs, so a merged signal for AAPL is still emitted — refuting both "drops
every signal for that symbol with reason vetoed" and "emits no merged signal
for that symbol". -/
theorem c1_counterexample :
    vetoZeroSig.symbol = "AAPL" ∧
    vetoZeroSig.tags.contains "do_not_trade" = true ∧
    (deconflict_signals [vetoZeroSig, longSigA] ["AAPL"]).1.map (·.symbol)
      = ["AAPL"] ∧
    (deconflict_signals [vetoZeroSig, longSigA] ["AAPL"]).2
      = [dropRecord vetoZeroSig .zero_strength] := by
  refine ⟨rfl, rfl, ?_, ?_⟩
  · simp [deconflict_signals, prefilter_signal, keptOf, firstOcc,
      symbolFoldStep, symbolSigs, merge_symbol_signals, directional_phase,
      exit_sigs_of, directional_sigs_of, veto_hit, group_weight, net_vote_of,
      consensus_side_of,
      build_directional_merged, mergeStep, MergeAcc.init, effective_weight,
      net_vote_contribution, regime_multiplier, isExitSignal, dropRecord,
      vetoZeroSig, longSigA, VOTE_EPS, qabs, clampStrength, clampConfidence,
      qmin, qmax, roundTo, qround, qfloor, imax, mergedSortVal, mergedLe,
      List.insertionSort, List.orderedInsert, DEFAULT_STRATEGY_WEIGHT,
      Side.value, alphaFilterStep, sigSideStr]
    norm_num
  · simp [deconflict_signals, prefilter_signal, keptOf, firstOcc,
      symbolFoldStep, symbolSigs, merge_symbol_signals, directional_phase,
      exit_sigs_of, directional_sigs_of, veto_hit, group_weight, net_vote_of,
      consensus_side_of,
      build_directional_merged, mergeStep, MergeAcc.init, effective_weight,
      net_vote_contribution, regime_multiplier, isExitSignal, dropRecord,
      vetoZeroSig, longSigA, VOTE_EPS, qabs, clampStrength, clampConfidence,
      qmin, qmax, roundTo, qround, qfloor, imax, mergedSortVal, mergedLe,
      List.insertionSort, List.orderedInsert, DEFAULT_STRATEGY_WEIGHT,
      Side.value, alphaFilterStep, sigSideStr]
    norm_num
    exact fun h => Side.noConfusion h

/-- C1 (amended): if any signal for a symbol that SURVIVES the pre-filter
(in-universe, nonzero strength, alpha not zeroed by cost) carries a veto
tag, then `deconflict_signals` emits no merged signal for that symbol, and
every surviving signal for the symbol (including the vetoing one) is
dropped with reason `vetoed`, regardless of relative strength.  (Signals
removed by the pre-filter keep their own typed drop reasons.) -/
theorem c1_theorem (signals : List Signal) (univ : List String)
    (sw : List (String × ℚ)) (regime : Option String)
    (rw : List (String × List (String × ℚ))) (sc : List (String × String))
    (vt : List String) (msa : ℚ) (sym : String)
    (hveto : ∃ s ∈ keptOf signals univ,
      s.symbol = sym ∧ s.tags.any (fun t => vt.contains t) = true) :
    (∀ m ∈ (deconflict_signals signals univ sw regime rw sc vt msa).1,
      ¬ m.symbol = sym) ∧
    (∀ s ∈ keptOf signals univ, s.symbol = sym →
      dropRecord s .vetoed
        ∈ (deconflict_signals signals univ sw regime rw sc vt msa).2) := by
  obtain ⟨s0, hs0k, hs0sym, hs0tag⟩ := hveto
  have hanyveto : ((symbolSigs (keptOf signals univ) sym).any
      (fun g => g.tags.any (fun t => vt.contains t))) = true := by
    rw [List.any_eq_true]
    exact ⟨s0, by simp [symbolSigs, List.mem_filter, hs0k, hs0sym], hs0tag⟩
  have hmerge := merge_veto sym (symbolSigs (keptOf signals univ) sym)
    sw regime rw sc vt hanyveto
  have hsym_in : sym ∈ (firstOcc ((keptOf signals univ).map
      (fun s => s.symbol))).insertionSort (· ≤ ·) := by
    rw [(List.perm_insertionSort _ _).mem_iff, mem_firstOcc]
    exact List.mem_map.mpr ⟨s0, hs0k, hs0sym⟩
  constructor
  · intro m hm hsymm
    have hm1 : m ∈ ((((firstOcc ((keptOf signals univ).map (fun s => s.symbol))).insertionSort
        (· ≤ ·)).foldl (symbolFoldStep (keptOf signals univ) sw regime rw sc vt)
        ([], signals.filterMap (prefilter_signal univ))).1) := by
      simp only [deconflict_signals] at hm
      rw [(List.perm_insertionSort _ _).mem_iff] at hm
      by_cases hmsa : msa > 0
      · rw [if_pos hmsa] at hm
        rcases alphaFilter_fst_mem msa _ _ m hm with h | h
        · simp at h
        · exact h
      · rw [if_neg hmsa] at hm
        exact hm
    rcases symbolFold_fst_mem _ _ _ _ _ _ _ _ m hm1 with h | ⟨sym', _, hsome⟩
    · simp at h
    · have := merge_some_symbol _ _ _ _ _ _ _ _ hsome
      rw [this] at hsymm
      rw [hsymm] at hsome
      rw [hmerge] at hsome
      simp at hsome
  · intro s hs hssym
    have hdrop : dropRecord s .vetoed
        ∈ (merge_symbol_signals sym (symbolSigs (keptOf signals univ) sym)
          sw regime rw sc vt).2 := by
      rw [hmerge]
      exact List.mem_map.mpr ⟨s, by simp [symbolSigs, List.mem_filter, hs, hssym], rfl⟩
    have h2 : dropRecord s .vetoed
        ∈ ((((firstOcc ((keptOf signals univ).map (fun s => s.symbol))).insertionSort
          (· ≤ ·)).foldl (symbolFoldStep (keptOf signals univ) sw regime rw sc vt)
          ([], signals.filterMap (prefilter_signal univ))).2) :=
      symbolFold_snd_mem _ _ _ _ _ _ _ _ _ _ hsym_in hdrop
    simp only [deconflict_signals]
    by_cases hmsa : msa > 0
    · rw [if_pos hmsa]
      exact alphaFilter_drops_mono msa _ _ h2
    · rw [if_neg hmsa]
      exact h2

/-- C1 witness: with a nonzero-strength veto signal and an ordinary long
signal on AAPL, no merged AAPL signal is emitted and both surviving signals
are dropped with reason `vetoed`. -/
theorem c1_witness :
    (∀ m ∈ (deconflict_signals [vetoSig, longSigA] ["AAPL"]).1,
      ¬ m.symbol = "AAPL") ∧
    dropRecord vetoSig .vetoed
      ∈ (deconflict_signals [vetoSig, longSigA] ["AAPL"]).2 ∧
    dropRecord longSigA .vetoed
      ∈ (deconflict_signals [vetoSig, longSigA] ["AAPL"]).2 := by
  have hkept : vetoSig ∈ keptOf [vetoSig, longSigA] ["AAPL"] := by
    simp [keptOf, prefilter_signal, vetoSig, longSigA]
  have hkeptL : longSigA ∈ keptOf [vetoSig, longSigA] ["AAPL"] := by
    simp [keptOf, prefilter_signal, vetoSig, longSigA]
  have h := c1_theorem [vetoSig, longSigA] ["AAPL"] [] none [] []
    ["do_not_trade"] 0 "AAPL" ⟨vetoSig, hkept, rfl, by simp [vetoSig]⟩
  exact ⟨h.1, h.2 vetoSig hkept rfl, h.2 longSigA hkeptL rfl⟩

theorem qmin_eq (a b : ℚ) : qmin a b = min a b := (min_def a b).symm

theorem qmax_eq (a b : ℚ) : qmax a b = max a b := (max_def a b).symm

theorem qabs_eq (a : ℚ) : qabs a = |a| := by
  unfold qabs
  rcases lt_or_ge a 0 with h | h
  · rw [if_pos h, abs_of_neg h]
  · rw [if_neg (not_lt.mpr h), abs_of_nonneg h]

theorem qfloor_eq (q : ℚ) : qfloor q = ⌊q⌋ := Rat.floor_def.symm

theorem qround_eq (q : ℚ) : qround q = round q := by
  rw [qround, qfloor_eq, round_eq]

theorem abs_round_cast_le (x : ℚ) : |((round x : ℤ) : ℚ)| ≤ |x| + 1/2 := by
  have h0 : |((round x : ℤ) : ℚ) - x| ≤ 1/2 := by
    rw [abs_sub_comm]
    exact abs_sub_round x
  calc |((round x : ℤ) : ℚ)|
      = |(((round x : ℤ) : ℚ) - x) + x| := by ring_nf
    _ ≤ |((round x : ℤ) : ℚ) - x| + |x| := abs_add _ _
    _ ≤ 1/2 + |x| := by linarith
    _ = |x| + 1/2 := by ring

theorem abs_roundTo2_le (q : ℚ) : |roundTo 2 q| ≤ |q| + 1/200 := by
  unfold roundTo
  rw [qround_eq, abs_div]
  have hpow : |((10 : ℚ) ^ 2)| = 100 := by norm_num
  rw [hpow]
  have h1 := abs_round_cast_le (q * 10 ^ 2)
  rw [abs_mul, hpow] at h1
  linarith

theorem abs_build_target_le (m : MergedSignal) (x e : ℚ) :
    |(build_target m x e).target_notional| ≤ |x| + 1/200 := by
  show |roundTo 2 (if m.side = "long" then x else -x)| ≤ |x| + 1/200
  by_cases h : m.side = "long"
  · rw [if_pos h]
    exact abs_roundTo2_le x
  · rw [if_neg h]
    calc |roundTo 2 (-x)| ≤ |(-x)| + 1/200 := abs_roundTo2_le (-x)
      _ = |x| + 1/200 := by rw [abs_neg]

theorem sum_map_mul_const (l : List ℚ) (c : ℚ) :
    (l.map (fun x => x * c)).sum = l.sum * c := by
  induction l with
  | nil => simp
  | cons x xs ih => simp [ih]; ring

theorem mem_cap_notionals_le (ns : List ℚ) (cap : ℚ) (x : ℚ)
    (hx : x ∈ cap_notionals ns cap) : x ≤ cap ∨ x ∈ ns := by
  rcases List.mem_map.mp hx with ⟨n, _, rfl⟩
  by_cases h : n > cap
  · exact Or.inl (by rw [if_pos h])
  · right
    rw [if_neg h]
    assumption

theorem mem_cap_notionals_bounds (ns : List ℚ) (cap : ℚ)
    (hns : ∀ n ∈ ns, 0 ≤ n) (hcap : 0 ≤ cap) (x : ℚ)
    (hx : x ∈ cap_notionals ns cap) : 0 ≤ x ∧ x ≤ cap := by
  rcases List.mem_map.mp hx with ⟨n, hn, rfl⟩
  by_cases h : n > cap
  · rw [if_pos h]
    exact ⟨hcap, le_refl cap⟩
  · rw [if_neg h]
    exact ⟨hns n hn, not_lt.mp h⟩

theorem sum_cap_notionals (ns : List ℚ) (cap : ℚ) :
    (cap_notionals ns cap).sum = ns.sum - excess_of ns cap := by
  induction ns with
  | nil => simp [cap_notionals, excess_of]
  | cons n rest ih =>
    simp only [cap_notionals, excess_of, List.map_cons, List.sum_cons] at *
    by_cases h : n > cap
    · rw [if_pos h, if_pos h, ih]; ring
    · rw [if_neg h, if_neg h, ih]; ring

theorem excess_nonneg (ns : List ℚ) (cap : ℚ) : 0 ≤ excess_of ns cap := by
  unfold excess_of
  apply List.sum_nonneg
  intro x hx
  rcases List.mem_map.mp hx with ⟨n, _, rfl⟩
  by_cases h : n > cap
  · rw [if_pos h]; linarith
  · rw [if_neg h]

theorem mem_redistribute_bounds (ns : List ℚ) (cap b : ℚ) (hb : 0 ≤ b)
    (hcap : 0 ≤ cap) (hns : ∀ n ∈ ns, 0 ≤ n ∧ n ≤ cap) (y : ℚ)
    (hy : y ∈ redistribute ns cap b) : 0 ≤ y ∧ y ≤ cap := by
  rcases List.mem_map.mp hy with ⟨n, hn, rfl⟩
  by_cases h : n < cap
  · rw [if_pos h, qmin_eq]
    constructor
    · exact le_min (by linarith [(hns n hn).1]) hcap
    · exact min_le_right _ _
  · rw [if_neg h]
    exact hns n hn

theorem sum_redistribute_le (ns : List ℚ) (cap b : ℚ) :
    (redistribute ns cap b).sum
      ≤ ns.sum + ((ns.filter (fun x => x < cap)).length : ℚ) * b := by
  induction ns with
  | nil => simp [redistribute]
  | cons n rest ih =>
    rw [redistribute, List.map_cons, List.filter_cons]
    simp only [List.sum_cons]
    have hfold : rest.map (fun n => if n < cap then qmin (n + b) cap else n)
        = redistribute rest cap b := rfl
    rw [hfold]
    by_cases h : n < cap
    · rw [if_pos h, if_pos (decide_eq_true h), List.length_cons]
      have hmin : qmin (n + b) cap ≤ n + b := by
        rw [qmin_eq]; exact min_le_left _ _
      push_cast
      linarith
    · rw [if_neg h, if_neg (by simp [h] : ¬ (decide (n < cap) = true))]
      linarith

theorem count_lt_cap_le (ns : List ℚ) (cap : ℚ) :
    ((cap_notionals ns cap).filter (fun x => x < cap)).length
      ≤ uncapped_count_of ns cap := by
  induction ns with
  | nil => simp [cap_notionals, uncapped_count_of]
  | cons n rest ih =>
    rw [cap_notionals, List.map_cons, List.filter_cons,
      uncapped_count_of, List.filter_cons]
    have hfold1 : rest.map (fun n => if n > cap then cap else n)
        = cap_notionals rest cap := rfl
    rw [hfold1]
    by_cases h : n > cap
    · rw [if_pos h,
        if_neg (by simp : ¬ (decide (cap < cap) = true)),
        if_neg (by simp [h] : ¬ (decide (¬ n > cap) = true))]
      exact ih
    · rw [if_neg h, if_pos (by simp [h] : decide (¬ n > cap) = true),
        List.length_cons]
      by_cases h2 : n < cap
      · rw [if_pos (decide_eq_true h2), List.length_cons]
        exact Nat.succ_le_succ ih
      · rw [if_neg (by simp [h2] : ¬ (decide (n < cap) = true))]
        exact Nat.le_succ_of_le ih

theorem RAW_EPS_pos : (0 : ℚ) < RAW_EPS := by norm_num [RAW_EPS]

theorem sum_norm_notionals (ws : List ℚ) (mt : ℚ)
    (htot : ¬ ws.sum < RAW_EPS) : (norm_notionals ws mt).sum = mt := by
  have ht : ws.sum ≠ 0 := by
    have := RAW_EPS_pos
    intro h
    rw [h] at htot
    exact htot this
  unfold norm_notionals
  rw [List.map_map]
  have hcong : ((· * mt) ∘ (· / ws.sum)) = fun w => w * (mt / ws.sum) := by
    funext w
    simp only [Function.comp_apply]
    ring
  rw [hcong, sum_map_mul_const]
  field_simp

theorem mem_norm_notionals_nonneg (ws : List ℚ) (mt : ℚ)
    (hws : ∀ w ∈ ws, 0 ≤ w) (htot : ¬ ws.sum < RAW_EPS) (hmt : 0 ≤ mt)
    (x : ℚ) (hx : x ∈ norm_notionals ws mt) : 0 ≤ x := by
  have ht : 0 < ws.sum := lt_of_lt_of_le RAW_EPS_pos (not_lt.mp htot)
  unfold norm_notionals at hx
  rw [List.map_map] at hx
  rcases List.mem_map.mp hx with ⟨w, hw, rfl⟩
  simp only [Function.comp_apply]
  exact mul_nonneg (div_nonneg (hws w hw) ht.le) hmt

/-- After allocation, capping and redistribution, every notional lies in
`[0, cap]` and the notionals sum to at most `max_total`. -/
theorem final_notionals_spec (ws : List ℚ) (mt cap : ℚ)
    (hws : ∀ w ∈ ws, 0 ≤ w) (htot : ¬ ws.sum < RAW_EPS)
    (hmt : 0 ≤ mt) (hcap : 0 ≤ cap) :
    (∀ x ∈ final_notionals ws mt cap, 0 ≤ x ∧ x ≤ cap) ∧
    (final_notionals ws mt cap).sum ≤ mt := by
  have hzero : ∀ n ∈ norm_notionals ws mt, 0 ≤ n :=
    fun n hn => mem_norm_notionals_nonneg ws mt hws htot hmt n hn
  have hcapb : ∀ x ∈ cap_notionals (norm_notionals ws mt) cap, 0 ≤ x ∧ x ≤ cap :=
    fun x hx => mem_cap_notionals_bounds _ _ hzero hcap x hx
  have hsumcap : (cap_notionals (norm_notionals ws mt) cap).sum
      = mt - excess_of (norm_notionals ws mt) cap := by
    rw [sum_cap_notionals, sum_norm_notionals ws mt htot]
  unfold final_notionals
  by_cases hcond : excess_of (norm_notionals ws mt) cap > 0 ∧
      uncapped_count_of (norm_notionals ws mt) cap > 0
  · rw [if_pos hcond]
    obtain ⟨hexc, huc⟩ := hcond
    have hb : 0 ≤ excess_of (norm_notionals ws mt) cap
        / (uncapped_count_of (norm_notionals ws mt) cap : ℚ) :=
      div_nonneg hexc.le (by positivity)
    constructor
    · exact fun y hy => mem_redistribute_bounds _ _ _ hb hcap hcapb y hy
    · have h1 := sum_redistribute_le
        (cap_notionals (norm_notionals ws mt) cap) cap
        (excess_of (norm_notionals ws mt) cap
          / (uncapped_count_of (norm_notionals ws mt) cap : ℚ))
      have h2 := count_lt_cap_le (norm_notionals ws mt) cap
      have hucne : ((uncapped_count_of (norm_notionals ws mt) cap : ℚ)) ≠ 0 := by
        exact_mod_cast Nat.pos_iff_ne_zero.mp huc
      have h3 : ((uncapped_count_of (norm_notionals ws mt) cap : ℚ))
          * (excess_of (norm_notionals ws mt) cap
            / (uncapped_count_of (norm_notionals ws mt) cap : ℚ))
          = excess_of (norm_notionals ws mt) cap := by
        field_simp
      have h4 : (((cap_notionals (norm_notionals ws mt) cap).filter
            (fun x => x < cap)).length : ℚ)
          ≤ ((uncapped_count_of (norm_notionals ws mt) cap : ℚ)) := by
        exact_mod_cast h2
      have h5 : (((cap_notionals (norm_notionals ws mt) cap).filter
            (fun x => x < cap)).length : ℚ)
          * (excess_of (norm_notionals ws mt) cap
            / (uncapped_count_of (norm_notionals ws mt) cap : ℚ))
          ≤ ((uncapped_count_of (norm_notionals ws mt) cap : ℚ))
          * (excess_of (norm_notionals ws mt) cap
            / (uncapped_count_of (norm_notionals ws mt) cap : ℚ)) :=
        mul_le_mul_of_nonneg_right h4 hb
      rw [h3] at h5
      rw [hsumcap] at h1
      linarith
  · rw [if_neg hcond]
    refine ⟨hcapb, ?_⟩
    rw [hsumcap]
    linarith [excess_nonneg (norm_notionals ws mt) cap]

/-- Bounds on the targets built from a list of signals zipped with bounded
notionals. -/
theorem targets_zip_bounds (signals : List MergedSignal) :
    ∀ (ns : List ℚ) (e cap : ℚ), (∀ x ∈ ns, 0 ≤ x ∧ x ≤ cap) →
    (∀ t ∈ (signals.zip ns).map (fun p => build_target p.1 p.2 e),
      |t.target_notional| ≤ cap + 1/200) ∧
    (((signals.zip ns).map (fun p => build_target p.1 p.2 e)).map
        (fun t => |t.target_notional|)).sum
      ≤ ns.sum + ((signals.zip ns).length : ℚ) * (1/200) := by
  induction signals with
  | nil =>
    intro ns e cap hb
    refine ⟨by simp, ?_⟩
    simp only [List.zip_nil_left, List.map_nil, List.sum_nil, List.length_nil]
    have : 0 ≤ ns.sum := List.sum_nonneg (fun x hx => (hb x hx).1)
    push_cast
    linarith
  | cons m ms ih =>
    intro ns e cap hb
    rcases ns with _ | ⟨n, ns'⟩
    · refine ⟨by simp, by simp⟩
    · have hn := hb n (by simp)
      have hrest : ∀ x ∈ ns', 0 ≤ x ∧ x ≤ cap :=
        fun x hx => hb x (by simp [hx])
      obtain ⟨ih1, ih2⟩ := ih ns' e cap hrest
      constructor
      · intro t ht
        rcases List.mem_cons.mp ht with rfl | ht'
        · calc |(build_target m n e).target_notional|
              ≤ |n| + 1/200 := abs_build_target_le m n e
            _ = n + 1/200 := by rw [abs_of_nonneg hn.1]
            _ ≤ cap + 1/200 := by linarith [hn.2]
        · exact ih1 t ht'
      · simp only [List.zip_cons_cons, List.map_cons, List.sum_cons,
          List.length_cons]
        have habs : |(build_target m n e).target_notional| ≤ |n| + 1/200 :=
          abs_build_target_le m n e
        rw [abs_of_nonneg hn.1] at habs
        push_cast
        linarith

/-- Bounds on the targets built from a constant notional (the equal-weight
path). -/
theorem targets_const_bounds (signals : List MergedSignal) (x e cap : ℚ)
    (hx : 0 ≤ x ∧ x ≤ cap) :
    (∀ t ∈ signals.map (fun m => build_target m x e),
      |t.target_notional| ≤ cap + 1/200) ∧
    ((signals.map (fun m => build_target m x e)).map
        (fun t => |t.target_notional|)).sum
      ≤ (signals.length : ℚ) * x + (signals.length : ℚ) * (1/200) := by
  induction signals with
  | nil => exact ⟨by simp, by simp⟩
  | cons m ms ih =>
    obtain ⟨ih1, ih2⟩ := ih
    constructor
    · intro t ht
      rcases List.mem_cons.mp ht with rfl | ht'
      · calc |(build_target m x e).target_notional|
            ≤ |x| + 1/200 := abs_build_target_le m x e
          _ = x + 1/200 := by rw [abs_of_nonneg hx.1]
          _ ≤ cap + 1/200 := by linarith [hx.2]
      · exact ih1 t ht'
    · simp only [List.map_cons, List.sum_cons, List.length_cons]
      have habs : |(build_target m x e).target_notional| ≤ |x| + 1/200 :=
        abs_build_target_le m x e
      rw [abs_of_nonneg hx.1] at habs
      push_cast
      linarith

/-- Cap and conservation bounds for `_size_equal_weight`. -/
theorem size_equal_weight_bounds (signals : List MergedSignal)
    (e mt cap : ℚ) (hmt : 0 ≤ mt) (hcap : 0 ≤ cap) :
    (∀ t ∈ size_equal_weight signals e mt cap,
      |t.target_notional| ≤ cap + 1/200) ∧
    ((size_equal_weight signals e mt cap).map
        (fun t => |t.target_notional|)).sum
      ≤ mt + ((size_equal_weight signals e mt cap).length : ℚ) * (1/200) := by
  unfold size_equal_weight
  by_cases hnil : signals = []
  · rw [if_pos hnil]
    exact ⟨by simp, by simp; linarith⟩
  · rw [if_neg hnil]
    have hlen : 0 < (signals.length : ℚ) := by
      have : 0 < signals.length := List.length_pos.mpr hnil
      exact_mod_cast this
    have hper : 0 ≤ qmin (mt / (signals.length : ℚ)) cap ∧
        qmin (mt / (signals.length : ℚ)) cap ≤ cap := by
      rw [qmin_eq]
      exact ⟨le_min (div_nonneg hmt hlen.le) hcap, min_le_right _ _⟩
    obtain ⟨h1, h2⟩ := targets_const_bounds signals
      (qmin (mt / (signals.length : ℚ)) cap) e cap hper
    refine ⟨h1, ?_⟩
    have hperle : qmin (mt / (signals.length : ℚ)) cap
        ≤ mt / (signals.length : ℚ) := by
      rw [qmin_eq]; exact min_le_left _ _
    have h3 : (signals.length : ℚ) * qmin (mt / (signals.length : ℚ)) cap
        ≤ mt := by
      calc (signals.length : ℚ) * qmin (mt / (signals.length : ℚ)) cap
          ≤ (signals.length : ℚ) * (mt / (signals.length : ℚ)) :=
            mul_le_mul_of_nonneg_left hperle hlen.le
        _ = mt := by field_simp
    have hlen2 : ((signals.map (fun m => build_target m
        (qmin (mt / (signals.length : ℚ)) cap) e)).length : ℚ)
        = (signals.length : ℚ) := by
      rw [List.length_map]
    rw [hlen2]
    linarith

theorem rawWeight_nonneg (m : MergedSignal) (hconf : 0 ≤ m.agg_confidence) :
    0 ≤ rawWeight m := by
  cases h : m.agg_alpha with
  | none =>
    simp only [rawWeight, h, qabs_eq]
    exact mul_nonneg (abs_nonneg _) hconf
  | some a =>
    simp only [rawWeight, h, qabs_eq]
    exact abs_nonneg a

/-- Cap and conservation bounds for the shared allocation pipeline. -/
theorem allocate_weighted_bounds (signals : List MergedSignal) (ws : List ℚ)
    (e mt cap : ℚ) (hws : ∀ w ∈ ws, 0 ≤ w) (hmt : 0 ≤ mt) (hcap : 0 ≤ cap) :
    (∀ t ∈ allocate_weighted signals ws e mt cap,
      |t.target_notional| ≤ cap + 1/200) ∧
    ((allocate_weighted signals ws e mt cap).map
        (fun t => |t.target_notional|)).sum
      ≤ mt + ((allocate_weighted signals ws e mt cap).length : ℚ) * (1/200) := by
  unfold allocate_weighted
  by_cases htot : ws.sum < RAW_EPS
  · rw [if_pos htot]
    exact size_equal_weight_bounds signals e mt cap hmt hcap
  · rw [if_neg htot]
    obtain ⟨hb, hsum⟩ := final_notionals_spec ws mt cap hws htot hmt hcap
    obtain ⟨h1, h2⟩ := targets_zip_bounds signals (final_notionals ws mt cap)
      e cap hb
    refine ⟨h1, ?_⟩
    have hlen : (((signals.zip (final_notionals ws mt cap)).map
          (fun p => build_target p.1 p.2 e)).length : ℚ)
        = ((signals.zip (final_notionals ws mt cap)).length : ℚ) := by
      rw [List.length_map]
    rw [hlen]
    linarith

/-- Cap and conservation bounds for `_size_signal_weighted`. -/
theorem size_signal_weighted_bounds (signals : List MergedSignal)
    (e mt cap : ℚ) (hconf : ∀ m ∈ signals, 0 ≤ m.agg_confidence)
    (hmt : 0 ≤ mt) (hcap : 0 ≤ cap) :
    (∀ t ∈ size_signal_weighted signals e mt cap,
      |t.target_notional| ≤ cap + 1/200) ∧
    ((size_signal_weighted signals e mt cap).map
        (fun t => |t.target_notional|)).sum
      ≤ mt + ((size_signal_weighted signals e mt cap).length : ℚ) * (1/200) := by
  unfold size_signal_weighted
  by_cases hnil : signals = []
  · rw [if_pos hnil]
    refine ⟨by simp, ?_⟩
    simp only [List.map_nil, List.sum_nil, List.length_nil]
    push_cast
    linarith
  · rw [if_neg hnil]
    refine allocate_weighted_bounds signals (signals.map rawWeight) e mt cap
      ?_ hmt hcap
    intro w hw
    rcases List.mem_map.mp hw with ⟨m, hm, rfl⟩
    exact rawWeight_nonneg m (hconf m hm)

theorem exit_targets_abs (exits : List MergedSignal) :
    ((exits.map exit_target).map (fun t => |t.target_notional|)).sum = 0 ∧
    ∀ t ∈ exits.map exit_target, |t.target_notional| = 0 := by
  constructor
  · rw [List.map_map]
    have hzero : ((fun t => |t.target_notional|) ∘ exit_target)
        = fun _ : MergedSignal => (0 : ℚ) := by
      funext m
      simp [exit_target]
    rw [hzero]
    induction exits with
    | nil => simp
    | cons m ms ih => simp [ih]
  · intro t ht
    rcases List.mem_map.mp ht with ⟨m, _, rfl⟩
    simp [exit_target]

/-- C4: signal-weighted sizing conserves the caps — the absolute target
notionals sum to at most `equity × max_portfolio_exposure_pct` and each is
at most `equity × max_position_pct`, up to the one-cent rounding tolerance
(`1/200` per target), including after the single-pass redistribution of
capped capital.  The `agg_confidence ≥ 0` hypothesis is the pydantic clamp
invariant on `MergedSignal`. -/
theorem c4_theorem (merged : List MergedSignal) (portfolio : PortfolioState)
    (risk : RiskLimits) (heq : 0 < portfolio.equity)
    (hpos : 0 ≤ risk.max_position_pct)
    (hexp : 0 ≤ risk.max_portfolio_exposure_pct)
    (hconf : ∀ m ∈ merged, 0 ≤ m.agg_confidence) :
    ((compute_targets merged portfolio risk .signal_weighted).map
        (fun t => |t.target_notional|)).sum
      ≤ portfolio.equity * risk.max_portfolio_exposure_pct
        + ((compute_targets merged portfolio risk .signal_weighted).length : ℚ)
          * (1/200) ∧
    (∀ t ∈ compute_targets merged portfolio risk .signal_weighted,
      |t.target_notional| ≤ portfolio.equity * risk.max_position_pct + 1/200) := by
  have hmt : 0 ≤ portfolio.equity * risk.max_portfolio_exposure_pct :=
    mul_nonneg heq.le hexp
  have hcap : 0 ≤ portfolio.equity * risk.max_position_pct :=
    mul_nonneg heq.le hpos
  by_cases hnil : merged = []
  · unfold compute_targets
    rw [if_pos hnil]
    refine ⟨?_, by simp⟩
    simp only [List.map_nil, List.sum_nil, List.length_nil]
    push_cast
    linarith
  · have hshape : compute_targets merged portfolio risk .signal_weighted
        = size_signal_weighted (merged.filter (fun m => ¬ m.side = "flat"))
            portfolio.equity
            (portfolio.equity * risk.max_portfolio_exposure_pct)
            (portfolio.equity * risk.max_position_pct)
          ++ (merged.filter (fun m => m.side = "flat")).map exit_target := by
      unfold compute_targets
      rw [if_neg hnil, if_neg (not_le.mpr heq)]
    obtain ⟨hsw1, hsw2⟩ := size_signal_weighted_bounds
      (merged.filter (fun m => ¬ m.side = "flat")) portfolio.equity
      (portfolio.equity * risk.max_portfolio_exposure_pct)
      (portfolio.equity * risk.max_position_pct)
      (fun m hm => hconf m (List.mem_filter.mp hm).1) hmt hcap
    obtain ⟨hex1, hex2⟩ := exit_targets_abs
      (merged.filter (fun m => m.side = "flat"))
    rw [hshape]
    constructor
    · rw [List.map_append, List.sum_append, hex1, List.length_append]
      have hlen2 : (0 : ℚ) ≤
          (((merged.filter (fun m => m.side = "flat")).map exit_target).length : ℚ) := by
        positivity
      push_cast
      push_cast at hsw2 hlen2
      linarith
    · intro t ht
      rcases List.mem_append.mp ht with h | h
      · exact hsw1 t h
      · rw [hex2 t h]
        linarith

/-- C4 witness: the conservation bounds at a concrete two-signal input with
equity 100,000 and the default caps. -/
theorem c4_witness :
    ((compute_targets [mergedAAPL, mergedMSFT] portfolio100k riskScenarioC
        .signal_weighted).map (fun t => |t.target_notional|)).sum
      ≤ portfolio100k.equity * riskScenarioC.max_portfolio_exposure_pct
        + ((compute_targets [mergedAAPL, mergedMSFT] portfolio100k riskScenarioC
            .signal_weighted).length : ℚ) * (1/200) ∧
    ∀ t ∈ compute_targets [mergedAAPL, mergedMSFT] portfolio100k riskScenarioC
        .signal_weighted,
      |t.target_notional|
        ≤ portfolio100k.equity * riskScenarioC.max_position_pct + 1/200 :=
  c4_theorem [mergedAAPL, mergedMSFT] portfolio100k riskScenarioC
    (by norm_num [portfolio100k])
    (by norm_num [riskScenarioC])
    (by norm_num [riskScenarioC])
    (by
      intro m hm
      simp only [List.mem_cons, List.not_mem_nil, or_false] at hm
      rcases hm with rfl | rfl <;> norm_num [mergedAAPL, mergedMSFT])

theorem build_target_agg_alpha (m : MergedSignal) (v : Option ℚ) (x e : ℚ) :
    build_target { m with agg_alpha := v } x e = build_target m x e := rfl

theorem zip_build_alpha_eq (e : ℚ) (g : MergedSignal → Option ℚ) :
    ∀ (sig : List MergedSignal) (ns : List ℚ),
      (((sig.map (fun m => { m with agg_alpha := g m })).zip ns).map
          (fun p => build_target p.1 p.2 e))
        = ((sig.zip ns).map (fun p => build_target p.1 p.2 e)) := by
  intro sig
  induction sig with
  | nil => intro ns; simp
  | cons m ms ih =>
    intro ns
    rcases ns with _ | ⟨n, ns'⟩
    · simp
    · simp only [List.map_cons, List.zip_cons_cons]
      rw [build_target_agg_alpha m (g m) n e, ih ns']

theorem size_equal_weight_alpha_eq (g : MergedSignal → Option ℚ)
    (signals : List MergedSignal) (e mt cap : ℚ) :
    size_equal_weight (signals.map (fun m => { m with agg_alpha := g m }))
        e mt cap
      = size_equal_weight signals e mt cap := by
  unfold size_equal_weight
  by_cases hnil : signals = []
  · subst hnil; simp
  · rw [if_neg (by simp [hnil]), if_neg hnil, List.length_map, List.map_map]
    apply List.map_congr_left
    intro m _
    exact build_target_agg_alpha m (g m) _ e

theorem allocate_weighted_alpha_eq (g : MergedSignal → Option ℚ)
    (signals : List MergedSignal) (ws : List ℚ) (e mt cap : ℚ) :
    allocate_weighted (signals.map (fun m => { m with agg_alpha := g m }))
        ws e mt cap
      = allocate_weighted signals ws e mt cap := by
  unfold allocate_weighted
  by_cases htot : ws.sum < RAW_EPS
  · rw [if_pos htot, if_pos htot]
    exact size_equal_weight_alpha_eq g signals e mt cap
  · rw [if_neg htot, if_neg htot]
    exact zip_build_alpha_eq e g signals (final_notionals ws mt cap)

/-- C5: the vol-targeted sizing method behaves exactly like signal-weighted
sizing applied to signals whose weight (`agg_alpha`) has been divided by the
externally supplied annualized volatility — same capping and
redistribution — and a symbol missing from the volatility map uses the
configured default.  `size_vol_target` is modelled from the spec (the
implementation evidenced by test_sizing.py is missing from the sizing.py
snapshot under src/). -/
theorem c5_theorem (signals : List MergedSignal) (vol_map : List (String × ℚ))
    (dv e mt cap : ℚ)
    (hconf : ∀ m ∈ signals, 0 ≤ m.agg_confidence)
    (hvol : ∀ m ∈ signals, 0 < volOf vol_map dv m.symbol) :
    size_vol_target signals vol_map dv e mt cap
      = size_signal_weighted (signals.map (volAdjust vol_map dv)) e mt cap
    ∧ ∀ sym, vol_map.lookup sym = none → volOf vol_map dv sym = dv := by
  constructor
  · have hws : (signals.map (volAdjust vol_map dv)).map rawWeight
        = signals.map (fun m => rawWeight m / volOf vol_map dv m.symbol) := by
      rw [List.map_map]
      apply List.map_congr_left
      intro m hm
      have h1 : rawWeight (volAdjust vol_map dv m)
          = qabs (rawWeight m / volOf vol_map dv m.symbol) := rfl
      show rawWeight (volAdjust vol_map dv m) = _
      rw [h1, qabs_eq, abs_of_nonneg
        (div_nonneg (rawWeight_nonneg m (hconf m hm)) (hvol m hm).le)]
    have hadj : signals.map (volAdjust vol_map dv)
        = signals.map (fun m =>
          { m with agg_alpha := some (rawWeight m / volOf vol_map dv m.symbol) }) :=
      rfl
    unfold size_vol_target size_signal_weighted
    by_cases hnil : signals = []
    · subst hnil; simp
    · rw [if_neg hnil, if_neg (by simp [hnil]), hws, hadj,
        allocate_weighted_alpha_eq]
  · intro sym h
    unfold volOf
    rw [h]
    rfl

/-- C5 witness: on AAPL (vol 0.15 in the map) and MSFT (missing, default
0.30), vol-targeted sizing equals signal-weighted sizing on the
vol-divided weights. -/
theorem c5_witness :
    size_vol_target [mergedAAPL, mergedMSFT] [("AAPL", 3/20)] (3/10)
        100000 90000 5000
      = size_signal_weighted
          ([mergedAAPL, mergedMSFT].map (volAdjust [("AAPL", 3/20)] (3/10)))
          100000 90000 5000
    ∧ ∀ sym, ([("AAPL", (3 : ℚ)/20)].lookup sym) = none →
        volOf [("AAPL", 3/20)] (3/10) sym = 3/10 :=
  c5_theorem [mergedAAPL, mergedMSFT] [("AAPL", 3/20)] (3/10) 100000 90000 5000
    (by
      intro m hm
      simp only [List.mem_cons, List.not_mem_nil, or_false] at hm
      rcases hm with rfl | rfl <;> norm_num [mergedAAPL, mergedMSFT])
    (by
      intro m hm
      simp only [List.mem_cons, List.not_mem_nil, or_false] at hm
      rcases hm with rfl | rfl <;>
        norm_num [volOf, List.lookup, mergedAAPL, mergedMSFT,
          show (("AAPL" : String) == "AAPL") = true from rfl,
          show (("MSFT" : String) == "AAPL") = false from rfl])

theorem runFold_fst_mono (sts : List Strategy) :
    ∀ (acc : List Signal × List StrategyRunError), acc.1 ⊆ (sts.foldl runStep acc).1 := by
  induction sts with
  | nil => intro acc; simp
  | cons st rest ih =>
    intro acc s hs
    refine ih (runStep acc st) ?_
    unfold runStep
    cases h : execute_strategy st <;> simp [hs]

theorem runFold_snd_mono (sts : List Strategy) :
    ∀ (acc : List Signal × List StrategyRunError), acc.2 ⊆ (sts.foldl runStep acc).2 := by
  induction sts with
  | nil => intro acc; simp
  | cons st rest ih =>
    intro acc e he
    refine ih (runStep acc st) ?_
    unfold runStep
    cases h : execute_strategy st <;> simp [he]

theorem runFold_error_mem (sts : List Strategy) :
    ∀ (acc : List Signal × List StrategyRunError) (st : Strategy)
      (e : StrategyRunError), st ∈ sts → execute_strategy st = .error e →
      e ∈ (sts.foldl runStep acc).2 := by
  induction sts with
  | nil => intro acc st e h; simp at h
  | cons st' rest ih =>
    intro acc st e hmem he
    simp only [List.foldl_cons]
    rcases List.mem_cons.mp hmem with rfl | hrest
    · refine runFold_snd_mono rest (runStep acc st) ?_
      unfold runStep
      rw [he]
      simp
    · exact ih (runStep acc st') st e hrest he

theorem runFold_ok_mem (sts : List Strategy) :
    ∀ (acc : List Signal × List StrategyRunError) (st : Strategy)
      (sigs : List Signal) (s : Signal), st ∈ sts →
      execute_strategy st = .ok sigs → s ∈ sigs →
      s ∈ (sts.foldl runStep acc).1 := by
  induction sts with
  | nil => intro acc st sigs s h; simp at h
  | cons st' rest ih =>
    intro acc st sigs s hmem he hs
    simp only [List.foldl_cons]
    rcases List.mem_cons.mp hmem with rfl | hrest
    · refine runFold_fst_mono rest (runStep acc st) ?_
      unfold runStep
      rw [he]
      simp [hs]
    · exact ih (runStep acc st') st sigs s hrest he hs

theorem execute_error_identity (st : Strategy) (e : StrategyRunError)
    (h : execute_strategy st = .error e) :
    e.strategy_id = st.strategy_id ∧ e.version = st.version := by
  cases hb : st.behavior with
  | returns v =>
    simp only [execute_strategy, hb] at h
    cases hv : validate_signals v st.strategy_id with
    | error msg =>
      simp only [hv] at h
      rw [← Except.error.inj h]
      exact ⟨rfl, rfl⟩
    | ok sigs =>
      simp only [hv] at h
      exact Except.noConfusion h
  | raisesExc ty msg =>
    simp only [execute_strategy, hb] at h
    rw [← Except.error.inj h]
    exact ⟨rfl, rfl⟩
  | timesOut =>
    simp only [execute_strategy, hb] at h
    rw [← Except.error.inj h]
    exact ⟨rfl, rfl⟩

theorem validate_items_some (sid : String) : ∀ (l : List RunItem),
    ((∃ t, RunItem.notSignal t ∈ l) ∨
      (∃ s, RunItem.sig s ∈ l ∧ ¬ s.strategy_id = sid)) →
    ∃ msg, validate_items sid l = some msg := by
  intro l
  induction l with
  | nil =>
    rintro (⟨t, ht⟩ | ⟨s, hs, _⟩)
    · simp at ht
    · simp at hs
  | cons i rest ih =>
    intro h
    cases i with
    | notSignal t => exact ⟨_, rfl⟩
    | sig s =>
      by_cases hid : s.strategy_id = sid
      · have hrest : (∃ t, RunItem.notSignal t ∈ rest) ∨
            (∃ s', RunItem.sig s' ∈ rest ∧ ¬ s'.strategy_id = sid) := by
          rcases h with ⟨t, ht⟩ | ⟨s', hs', hneq⟩
          · rcases List.mem_cons.mp ht with heq | h'
            · exact absurd heq (by simp)
            · exact Or.inl ⟨t, h'⟩
          · rcases List.mem_cons.mp hs' with heq | h'
            · injection heq with h2
              subst h2
              exact absurd hid hneq
            · exact Or.inr ⟨s', h', hneq⟩
        obtain ⟨msg, hmsg⟩ := ih hrest
        refine ⟨msg, ?_⟩
        simp only [validate_items, hid, not_true_eq_false, if_false, hmsg]
      · exact ⟨"Signal strategy_id " ++ s.strategy_id ++ " does not match " ++ sid,
          by simp only [validate_items, hid, not_false_eq_true, if_true]⟩

/-- C7: the runner isolates per-strategy failures.  Every failing strategy
(exception, timeout, non-list return, non-`Signal` item, or a signal with a
mismatched `strategy_id`) produces a structured error record carrying its
own id and version with the right error kind; the run always completes with
every strategy accounted for, and valid strategies' signals are still
returned. -/
theorem c7_theorem (strategies : List Strategy) :
    (∀ st ∈ strategies, ∀ e, execute_strategy st = .error e →
      e ∈ (run_strategies strategies).errors ∧
      e.strategy_id = st.strategy_id ∧ e.version = st.version) ∧
    (∀ st ∈ strategies, ∀ sigs, execute_strategy st = .ok sigs →
      ∀ s ∈ sigs, s ∈ (run_strategies strategies).signals) ∧
    (∀ st : Strategy, st.behavior = .timesOut →
      ∃ e, execute_strategy st = .error e ∧ e.error_type = "TimeoutError") ∧
    (∀ st : Strategy, ∀ ty msg, st.behavior = .raisesExc ty msg →
      ∃ e, execute_strategy st = .error e ∧
        e.error_type = ty ∧ e.error_message = msg) ∧
    (∀ st : Strategy, ∀ t, st.behavior = .returns (.notAList t) →
      ∃ e, execute_strategy st = .error e ∧ e.error_type = "StrategyError") ∧
    (∀ st : Strategy, ∀ l, st.behavior = .returns (.items l) →
      ((∃ t, RunItem.notSignal t ∈ l) ∨
        (∃ s, RunItem.sig s ∈ l ∧ ¬ s.strategy_id = st.strategy_id)) →
      ∃ e, execute_strategy st = .error e ∧ e.error_type = "StrategyError") ∧
    (run_strategies strategies).strategies_run = strategies.length := by
  refine ⟨?_, ?_, ?_, ?_, ?_, ?_, rfl⟩
  · intro st hmem e he
    refine ⟨?_, execute_error_identity st e he⟩
    show e ∈ (strategies.foldl runStep ([], [])).2
    exact runFold_error_mem strategies ([], []) st e hmem he
  · intro st hmem sigs he s hs
    show s ∈ ((strategies.foldl runStep ([], [])).1.insertionSort (signalLe · ·))
    rw [(List.perm_insertionSort _ _).mem_iff]
    exact runFold_ok_mem strategies ([], []) st sigs s hmem he hs
  · intro st hb
    refine ⟨⟨st.strategy_id, st.version, "TimeoutError",
      st.strategy_id ++ " exceeded time budget"⟩, ?_, rfl⟩
    simp only [execute_strategy, hb]
  · intro st ty msg hb
    refine ⟨⟨st.strategy_id, st.version, ty, msg⟩, ?_, rfl, rfl⟩
    simp only [execute_strategy, hb]
  · intro st t hb
    refine ⟨⟨st.strategy_id, st.version, "StrategyError",
      st.strategy_id ++ ".run() returned " ++ t ++ ", expected list"⟩, ?_, rfl⟩
    simp only [execute_strategy, hb, validate_signals]
  · intro st l hb hbad
    obtain ⟨msg, hmsg⟩ := validate_items_some st.strategy_id l hbad
    refine ⟨⟨st.strategy_id, st.version, "StrategyError", msg⟩, ?_, rfl⟩
    simp only [execute_strategy, hb, validate_signals, hmsg]

/-- C7 witness: alongside a raising, a timing-out and an identity-mismatched
strategy, the healthy strategy's signal is still returned and each failure
is recorded with its own id, version and kind. -/
theorem c7_witness :
    (∃ e, execute_strategy raisingStrategy = .error e ∧
      e ∈ (run_strategies [raisingStrategy, slowStrategy, okStrategy]).errors ∧
      e.strategy_id = "strat_bad" ∧ e.version = "0.1.0" ∧
      e.error_type = "ValueError") ∧
    (∃ e, execute_strategy imposterStrategy = .error e ∧
      e.error_type = "StrategyError") ∧
    longSigA ∈ (run_strategies [raisingStrategy, slowStrategy, okStrategy]).signals := by
  have h := c7_theorem [raisingStrategy, slowStrategy, okStrategy]
  obtain ⟨h1, h2, _h3, h4, _h5, h6, _h7⟩ := h
  refine ⟨?_, ?_, ?_⟩
  · obtain ⟨e, he, hty, hmsg⟩ := h4 raisingStrategy "ValueError" "boom" rfl
    obtain ⟨hmem, hid, hver⟩ := h1 raisingStrategy (by simp) e he
    exact ⟨e, he, hmem, hid, hver, hty⟩
  · have h8 := c7_theorem [imposterStrategy]
    obtain ⟨_, _, _, _, _, h6', _⟩ := h8
    exact h6' imposterStrategy [.sig longSigA] rfl
      (Or.inr ⟨longSigA, by simp, by simp [longSigA, imposterStrategy]⟩)
  · refine h2 okStrategy (by simp) [longSigA] ?_ longSigA (by simp)
    rfl

theorem foldl_qmin_le_init : ∀ (xs : List ℚ) (a : ℚ), xs.foldl qmin a ≤ a := by
  intro xs
  induction xs with
  | nil => intro a; simp
  | cons x xs ih =>
    intro a
    simp only [List.foldl_cons]
    calc xs.foldl qmin (qmin a x) ≤ qmin a x := ih (qmin a x)
      _ ≤ a := by rw [qmin_eq]; exact min_le_left a x

theorem foldl_qmin_le_mem : ∀ (xs : List ℚ) (a x : ℚ), x ∈ xs →
    xs.foldl qmin a ≤ x := by
  intro xs
  induction xs with
  | nil => intro a x h; simp at h
  | cons y ys ih =>
    intro a x h
    simp only [List.foldl_cons]
    rcases List.mem_cons.mp h with rfl | h'
    · calc ys.foldl qmin (qmin a x) ≤ qmin a x := foldl_qmin_le_init ys _
        _ ≤ x := by rw [qmin_eq]; exact min_le_right a x
    · exact ih (qmin a y) x h'

theorem foldl_qmin_mem : ∀ (xs : List ℚ) (a : ℚ),
    xs.foldl qmin a = a ∨ xs.foldl qmin a ∈ xs := by
  intro xs
  induction xs with
  | nil => intro a; exact Or.inl rfl
  | cons y ys ih =>
    intro a
    simp only [List.foldl_cons]
    rcases ih (qmin a y) with h | h
    · rw [h]
      unfold qmin
      by_cases hle : a ≤ y
      · rw [if_pos hle]; exact Or.inl rfl
      · rw [if_neg hle]; exact Or.inr (by simp)
    · exact Or.inr (by simp [h])

theorem foldl_qmax_ge_init : ∀ (xs : List ℚ) (a : ℚ), a ≤ xs.foldl qmax a := by
  intro xs
  induction xs with
  | nil => intro a; simp
  | cons x xs ih =>
    intro a
    simp only [List.foldl_cons]
    calc a ≤ qmax a x := by rw [qmax_eq]; exact le_max_left a x
      _ ≤ xs.foldl qmax (qmax a x) := ih (qmax a x)

theorem foldl_qmax_ge_mem : ∀ (xs : List ℚ) (a x : ℚ), x ∈ xs →
    x ≤ xs.foldl qmax a := by
  intro xs
  induction xs with
  | nil => intro a x h; simp at h
  | cons y ys ih =>
    intro a x h
    simp only [List.foldl_cons]
    rcases List.mem_cons.mp h with rfl | h'
    · calc x ≤ qmax a x := by rw [qmax_eq]; exact le_max_right a x
        _ ≤ ys.foldl qmax (qmax a x) := foldl_qmax_ge_init ys _
    · exact ih (qmax a y) x h'

theorem listMin_mem (l : List ℚ) (h : l ≠ []) : listMin l ∈ l := by
  rcases l with _ | ⟨x, xs⟩
  · exact absurd rfl h
  · show xs.foldl qmin x ∈ x :: xs
    rcases foldl_qmin_mem xs x with h' | h'
    · rw [h']; simp
    · simp [h']

theorem listMin_le (l : List ℚ) (x : ℚ) (hx : x ∈ l) : listMin l ≤ x := by
  rcases l with _ | ⟨y, ys⟩
  · simp at hx
  · show ys.foldl qmin y ≤ x
    rcases List.mem_cons.mp hx with rfl | h'
    · exact foldl_qmin_le_init ys x
    · exact foldl_qmin_le_mem ys y x h'

theorem le_listMax (l : List ℚ) (x : ℚ) (hx : x ∈ l) : x ≤ listMax l := by
  rcases l with _ | ⟨y, ys⟩
  · simp at hx
  · show x ≤ ys.foldl qmax y
    rcases List.mem_cons.mp hx with rfl | h'
    · exact foldl_qmax_ge_init ys x
    · exact foldl_qmax_ge_mem ys y x h'

theorem mem_dataSymsOf (latest : String → String → Option ℚ)
    (symbols : List String) (timeframe : String) (s : String) :
    s ∈ dataSymsOf latest symbols timeframe ↔
      s ∈ symbols ∧ (latest s timeframe).isSome = true := by
  unfold dataSymsOf
  rw [mem_firstOcc, List.mem_filter]

/-- C9: `resolve_eval_ts` (i) returns the minimum latest-bar timestamp over
fresh symbols when any symbol is fresh; (ii) falls back to the freshest
available timestamp (the maximum over symbols with data) when none is
fresh; (iii) falls back to the wall clock when no symbol has data; and
(iv) classifies a symbol with data as stale exactly when the freshest
timestamp minus its own, in minutes, exceeds the staleness bound. -/
theorem c9_theorem (latest : String → String → Option ℚ)
    (symbols : List String) (timeframe : String) (bound : Option ℚ)
    (now : ℚ) :
    ((resolve_eval_ts latest symbols timeframe bound now).fresh_symbols ≠ [] →
      (resolve_eval_ts latest symbols timeframe bound now).eval_ts ∈
        ((resolve_eval_ts latest symbols timeframe bound now).fresh_symbols.map
          (latestTs latest timeframe)) ∧
      ∀ s ∈ (resolve_eval_ts latest symbols timeframe bound now).fresh_symbols,
        (resolve_eval_ts latest symbols timeframe bound now).eval_ts
          ≤ latestTs latest timeframe s) ∧
    ((resolve_eval_ts latest symbols timeframe bound now).fresh_symbols = [] →
      (∃ s ∈ symbols, (latest s timeframe).isSome = true) →
      (resolve_eval_ts latest symbols timeframe bound now).eval_ts
        = freshestOf latest symbols timeframe) ∧
    ((∀ s ∈ symbols, latest s timeframe = none) →
      (resolve_eval_ts latest symbols timeframe bound now).eval_ts = now) ∧
    (∀ s ∈ symbols, ∀ t, latest s timeframe = some t →
      t ≤ freshestOf latest symbols timeframe) ∧
    (∀ mb, bound = some mb → ∀ s ∈ symbols, ∀ t, latest s timeframe = some t →
      (s ∈ (resolve_eval_ts latest symbols timeframe bound now).stale_symbols ↔
        (freshestOf latest symbols timeframe - t) / 60 > mb)) := by
  have hmemdata : ∀ s ∈ symbols, ∀ t, latest s timeframe = some t →
      s ∈ dataSymsOf latest symbols timeframe := by
    intro s hs t ht
    rw [mem_dataSymsOf]
    exact ⟨hs, by rw [ht]; rfl⟩
  have hmax : ∀ s ∈ symbols, ∀ t, latest s timeframe = some t →
      t ≤ freshestOf latest symbols timeframe := by
    intro s hs t ht
    have h1 : latestTs latest timeframe s ∈
        (dataSymsOf latest symbols timeframe).map (latestTs latest timeframe) :=
      List.mem_map.mpr ⟨s, hmemdata s hs t ht, rfl⟩
    have h2 : latestTs latest timeframe s = t := by
      unfold latestTs
      rw [ht]
      rfl
    rw [h2] at h1
    exact le_listMax _ t h1
  by_cases hsym : symbols = []
  · subst hsym
    refine ⟨?_, ?_, ?_, ?_, ?_⟩
    · intro hf
      exfalso
      apply hf
      simp [resolve_eval_ts]
    · rintro _ ⟨s, hs, _⟩
      simp at hs
    · intro _
      simp [resolve_eval_ts]
    · intro s hs
      simp at hs
    · intro mb _ s hs
      simp at hs
  · by_cases hdata : dataSymsOf latest symbols timeframe = []
    · have hres : resolve_eval_ts latest symbols timeframe bound now
          = { eval_ts := now
              missing_symbols := symbols.filter
                (fun s => (latest s timeframe).isNone) } := by
        unfold resolve_eval_ts
        rw [if_neg hsym, if_pos hdata]
      refine ⟨?_, ?_, ?_, hmax, ?_⟩
      · intro hf
        rw [hres] at hf
        exact absurd rfl hf
      · rintro _ ⟨s, hs, hsome⟩
        exfalso
        have : s ∈ dataSymsOf latest symbols timeframe :=
          (mem_dataSymsOf latest symbols timeframe s).mpr ⟨hs, hsome⟩
        rw [hdata] at this
        simp at this
      · intro _
        rw [hres]
      · intro mb _ s hs t ht
        exfalso
        have : s ∈ dataSymsOf latest symbols timeframe := hmemdata s hs t ht
        rw [hdata] at this
        simp at this
    · have hres : resolve_eval_ts latest symbols timeframe bound now
          = { eval_ts :=
                if fresh_syms_of latest symbols timeframe bound ≠ [] then
                  listMin ((fresh_syms_of latest symbols timeframe bound).map
                    (latestTs latest timeframe))
                else freshestOf latest symbols timeframe
              fresh_symbols := fresh_syms_of latest symbols timeframe bound
              stale_symbols := stale_syms_of latest symbols timeframe bound
              missing_symbols := symbols.filter
                (fun s => (latest s timeframe).isNone) } := by
        unfold resolve_eval_ts
        rw [if_neg hsym, if_neg hdata]
      rw [hres]
      refine ⟨?_, ?_, ?_, hmax, ?_⟩
      · intro hf
        simp only at hf ⊢
        rw [if_pos hf]
        constructor
        · apply listMin_mem
          intro hmap
          exact hf (List.map_eq_nil_iff.mp hmap)
        · intro s hs
          exact listMin_le _ _ (List.mem_map.mpr ⟨s, hs, rfl⟩)
      · intro hf _
        simp only at hf ⊢
        rw [if_neg (by simp [hf])]
      · intro hnone
        exfalso
        rcases List.exists_mem_of_ne_nil _ hdata with ⟨s, hs⟩
        rw [mem_dataSymsOf] at hs
        have h2 := hs.2
        rw [hnone s hs.1] at h2
        simp at h2
      · intro mb hmb s hs t ht
        subst hmb
        simp only [stale_syms_of]
        rw [List.mem_filter]
        have h2 : latestTs latest timeframe s = t := by
          unfold latestTs
          rw [ht]
          rfl
        constructor
        · rintro ⟨_, hcond⟩
          rw [h2] at hcond
          simpa using hcond
        · intro hcond
          refine ⟨hmemdata s hs t ht, ?_⟩
          rw [h2]
          simpa using hcond

theorem c9_witness :
    (resolve_eval_ts c9Latest ["AAPL", "MSFT", "GOOG"] "1Day" (some 60) 0).eval_ts
      ∈ ((resolve_eval_ts c9Latest ["AAPL", "MSFT", "GOOG"] "1Day"
            (some 60) 0).fresh_symbols.map (latestTs c9Latest "1Day")) ∧
    ("MSFT" ∈ (resolve_eval_ts c9Latest ["AAPL", "MSFT", "GOOG"] "1Day"
            (some 60) 0).stale_symbols ↔
      (freshestOf c9Latest ["AAPL", "MSFT", "GOOG"] "1Day" - 0) / 60 > 60) := by
  have h := c9_theorem c9Latest ["AAPL", "MSFT", "GOOG"] "1Day" (some 60) 0
  refine ⟨(h.1 ?_).1, h.2.2.2.2 60 rfl "MSFT" (by simp) 0 (by simp [c9Latest])⟩
  intro hcontra
  simp [resolve_eval_ts, fresh_syms_of, dataSymsOf, firstOcc, freshestOf,
    latestTs, listMax, qmax, c9Latest] at hcontra
  norm_num at hcontra

/-- C8: when the stale-plus-missing fraction of the universe exceeds the
configured `max_stale_pct`, `orchestrate` (without a `now_ts` override)
returns a no-trade intent — `trade_allowed = false` and an empty target
list — and the whole intent is independent of the strategy list and of the
universe-filter collaborator, so no strategy decision function is
invoked. -/
theorem c8_theorem (strategies : List Strategy) (univ : List String)
    (latest : String → String → Option ℚ)
    (filterUni : List String → UniverseResult)
    (portfolio : PortfolioState) (risk_limits : RiskLimits)
    (orch_cfg : OrchestratorConfig) (sw : List (String × ℚ))
    (sm : SizingMethod) (wallclock : ℚ)
    (h : univ ≠ [] ∧
      (((resolve_eval_ts latest univ orch_cfg.primary_timeframe
            (orch_cfg.max_staleness.lookup orch_cfg.primary_timeframe)
            wallclock).stale_symbols.length
          + (resolve_eval_ts latest univ orch_cfg.primary_timeframe
            (orch_cfg.max_staleness.lookup orch_cfg.primary_timeframe)
            wallclock).missing_symbols.length : ℕ) : ℚ)
        / (univ.length : ℚ) > orch_cfg.max_stale_pct) :
    (orchestrate strategies univ latest filterUni portfolio risk_limits none
      orch_cfg sw sm wallclock).trade_allowed = false ∧
    (orchestrate strategies univ latest filterUni portfolio risk_limits none
      orch_cfg sw sm wallclock).targets = [] ∧
    ∀ (strategies' : List Strategy)
      (filterUni' : List String → UniverseResult),
      orchestrate strategies' univ latest filterUni' portfolio risk_limits
          none orch_cfg sw sm wallclock
        = orchestrate strategies univ latest filterUni portfolio risk_limits
          none orch_cfg sw sm wallclock := by
  have key : ∀ (sts : List Strategy) (fu : List String → UniverseResult),
      orchestrate sts univ latest fu portfolio risk_limits none
          orch_cfg sw sm wallclock
        = { as_of_ts := (resolve_eval_ts latest univ orch_cfg.primary_timeframe
              (orch_cfg.max_staleness.lookup orch_cfg.primary_timeframe)
              wallclock).eval_ts
            portfolio_state := portfolio
            universe_result := { included := [] }
            sizing_method := sm
            trade_allowed := false } := by
    intro sts fu
    simp only [orchestrate]
    rw [if_pos h]
  refine ⟨?_, ?_, ?_⟩
  · rw [key strategies filterUni]
  · rw [key strategies filterUni]
  · intro sts fu
    rw [key sts fu, key strategies filterUni]

theorem c8_witness :
    (orchestrate [okStrategy] scenarioDUniverse scenarioDLatest
      (fun l => { included := l }) portfolio100k {} none {} [] .signal_weighted
      0).trade_allowed = false ∧
    (orchestrate [okStrategy] scenarioDUniverse scenarioDLatest
      (fun l => { included := l }) portfolio100k {} none {} [] .signal_weighted
      0).targets = [] := by
  have h := c8_theorem [okStrategy] scenarioDUniverse scenarioDLatest
    (fun l => { included := l }) portfolio100k {} {} [] .signal_weighted 0
    (by
      constructor
      · simp [scenarioDUniverse]
      · simp [resolve_eval_ts, stale_syms_of, fresh_syms_of, dataSymsOf,
          firstOcc, freshestOf, latestTs, listMax, qmax, scenarioDUniverse,
          scenarioDLatest, OrchestratorConfig.max_staleness,
          OrchestratorConfig.primary_timeframe,
          OrchestratorConfig.max_stale_pct, List.lookup]
        norm_num)
  exact ⟨h.1, h.2.1⟩

/-- C10: `deconflict_signals` is deterministic — two runs on pairwise-equal
inputs (signals, universe, strategy weights, regime configuration, regime
weights, strategy categories, veto tags, alpha threshold) return equal
merged-signal lists and equal drop-record lists — and the merged output
carries the canonical ordering: it is sorted by the
`(-abs(agg_alpha or agg_strength), symbol)` key, so the output order is a
function of the inputs alone. -/
theorem c10_theorem (signals₁ signals₂ : List Signal)
    (univ₁ univ₂ : List String) (w₁ w₂ : List (String × ℚ))
    (regime₁ regime₂ : Option String)
    (rweights₁ rweights₂ : List (String × List (String × ℚ)))
    (cats₁ cats₂ : List (String × String)) (vt₁ vt₂ : List String)
    (ma₁ ma₂ : ℚ)
    (hs : signals₁ = signals₂) (hu : univ₁ = univ₂) (hw : w₁ = w₂)
    (hr : regime₁ = regime₂) (hrw : rweights₁ = rweights₂)
    (hc : cats₁ = cats₂) (hv : vt₁ = vt₂) (hm : ma₁ = ma₂) :
    deconflict_signals signals₁ univ₁ w₁ regime₁ rweights₁ cats₁ vt₁ ma₁
      = deconflict_signals signals₂ univ₂ w₂ regime₂ rweights₂ cats₂ vt₂
        ma₂ ∧
    (deconflict_signals signals₁ univ₁ w₁ regime₁ rweights₁ cats₁ vt₁
      ma₁).1.Sorted mergedLe := by
  subst hs hu hw hr hrw hc hv hm
  exact ⟨rfl, List.sorted_insertionSort _ _⟩

theorem c10_witness :
    deconflict_signals [vetoZeroSig, longSigA, shortSigB] ["AAPL", "MSFT"]
        [] none [] [] ["do_not_trade"] 0
      = deconflict_signals [vetoZeroSig, longSigA, shortSigB]
        ["AAPL", "MSFT"] [] none [] [] ["do_not_trade"] 0 ∧
    (deconflict_signals [vetoZeroSig, longSigA, shortSigB] ["AAPL", "MSFT"]
      [] none [] [] ["do_not_trade"] 0).1.Sorted mergedLe :=
  c10_theorem _ _ _ _ _ _ _ _ _ _ _ _ _ _ _ _
    rfl rfl rfl rfl rfl rfl rfl rfl

end AgenticTrading
